import Mathlib

/-!
# Dungeon helper (`src/d12.cpp`): shallow embedding and verified properties

The C++ program keeps a square grid of cyclic tiles, a player and a status, and
a runner that plays random attempts.  The embedding below follows the source
function by function:

* `int` values are `Int`.  Signed overflow is undefined behaviour in C++, so the
  source assigns no meaning to it; all arithmetic here is the mathematical one.
* `std::vector` is `List`; `operator[]` outside the bounds is undefined
  behaviour and is rendered as the fault `Fault.outOfRange`.
* Every operation that can leave defined behaviour returns `Except Fault _`.
* `RandInt()` reads the clock; it is rendered as a stream `rng : Nat → Nat`
  together with the position of the next draw.
* Loops are `forLoop`, a left fold over `0, 1, ..., n-1`; the `while` loop of
  `Try` takes a fuel argument and reports `Fault.outOfFuel` when it is used up.
* Printing is left out, except for the text of the solution that `Run` prints;
  the result of `Run` also records what each call of `Try` returned.
-/

namespace dungeon_helper

/-- Ways in which an execution leaves the defined behaviour of the program. -/
inductive Fault where
  /-- `operator[]` of a vector with an index outside its bounds. -/
  | outOfRange
  /-- An `assert` whose condition is false. -/
  | assertFailed
  /-- The remainder of a division by zero. -/
  | divByZero
  /-- A non-void function that reaches its end without `return`. -/
  | noReturn
  /-- A vector constructed with a negative size. -/
  | lengthError
  /-- The fuel given to the model of a `while` loop is used up. -/
  | outOfFuel
  deriving DecidableEq, Repr

instance instDecidableEqExcept {ε α : Type} [DecidableEq ε] [DecidableEq α] :
    DecidableEq (Except ε α)
  | .ok a, .ok b => if h : a = b then isTrue (by rw [h]) else isFalse (by intro e; cases e; exact h rfl)
  | .error a, .error b =>
      if h : a = b then isTrue (by rw [h]) else isFalse (by intro e; cases e; exact h rfl)
  | .ok _, .error _ => isFalse (by intro e; cases e)
  | .error _, .ok _ => isFalse (by intro e; cases e)

/-- The enumeration `Block`, by its underlying `int` value. -/
abbrev Block := Int

/-- Enumerator `Block::kSmallWhite = 0` (the spec's SmallBoon). -/
def Block.kSmallWhite : Block := 0

/-- Enumerator `Block::kBorderWhite = 1` (the spec's BorderHazard). -/
def Block.kBorderWhite : Block := 1

/-- Enumerator `Block::kBlack = 2` (the spec's OrbSource). -/
def Block.kBlack : Block := 2

/-- Enumerator `Block::kBigWhite = 3` (the spec's Sanctuary). -/
def Block.kBigWhite : Block := 3

/-- The enumeration `DungeonStatus`. -/
inductive DungeonStatus where
  | kPassed
  | kDead
  | kRunning
  deriving DecidableEq, Repr

/-- The struct `Player`. -/
structure Player where
  r : Int
  c : Int
  hp : Int
  orb_count : Int := 0
  deriving DecidableEq, Repr

/-- A `std::vector<std::vector<Block>>`. -/
abbrev Grid := List (List Block)

/-- Read `v[i]` for an `int` index. -/
def vecGet {α : Type} (v : List α) (i : Int) : Except Fault α :=
  if i < 0 then .error .outOfRange
  else
    match v[i.toNat]? with
    | some a => .ok a
    | none => .error .outOfRange

/-- Assign `v[i] = a` for an `int` index. -/
def vecSet {α : Type} (v : List α) (i : Int) (a : α) : Except Fault (List α) :=
  if 0 ≤ i ∧ i.toNat < v.length then .ok (v.set i.toNat a) else .error .outOfRange

/-- Read `g[i][j]`. -/
def Grid.read (g : Grid) (i j : Int) : Except Fault Block := do
  let row ← vecGet g i
  vecGet row j

/-- Assign `g[i][j] = b`. -/
def Grid.write (g : Grid) (i j : Int) (b : Block) : Except Fault Grid := do
  let row ← vecGet g i
  let row' ← vecSet row j b
  vecSet g i row'

/-- The loop `for (int i = 0; i < n; ++i) body(i)` acting on a state. -/
def forLoop {σ : Type} (n : Int) (body : Int → σ → Except Fault σ) (s : σ) :
    Except Fault σ :=
  (List.range n.toNat).foldlM (fun acc (i : Nat) => body (i : Int) acc) s

/-- One call of `RandInt()`: the next draw, as an `unsigned int`, and the
position of the draw after it. -/
def RandInt (rng : Nat → Nat) (pos : Nat) : Nat × Nat :=
  (rng pos % 4294967296, pos + 1)

/-- The class `Dungeon`: its data members. -/
structure Dungeon where
  status_ : DungeonStatus := .kRunning
  kSize : Int
  kDesiredOrbCount : Int
  grid_initial_ : Grid
  grid_ : Grid
  player_initial_ : Player
  player_ : Player
  past_moves_ : List Char := []
  deriving DecidableEq, Repr

/-- The method `Dungeon::NewPlayer`. -/
def NewPlayer (hp : Int) : Player :=
  { r := 1, c := 1, hp := hp }

/-- The method `Dungeon::NextBlock`; `%` of C++ truncates towards zero. -/
def NextBlock (block : Block) : Block :=
  Int.tmod (block + 1) 4

/-- The method `Dungeon::IsInGrid`.  The conjunction is evaluated left to
right, so `grid_[0]` is only read when `0 <= row < grid_.size()`, where the
first row exists; `row` is then non-negative and its conversion to `size_t`
keeps its value. -/
def Dungeon.IsInGrid (d : Dungeon) (row column : Int) : Bool :=
  decide (0 ≤ row) && decide (row < (d.grid_.length : Int)) && decide (0 ≤ column) &&
    decide (column < ((d.grid_.headD []).length : Int))

/-- The method `Dungeon::PlayerOnBlock`. -/
def Dungeon.PlayerOnBlock (d : Dungeon) : Except Fault Block :=
  d.grid_.read d.player_.r d.player_.c

/-- The method `Dungeon::NextPosition`; a direction outside `u d l r` matches
no case and the function ends without `return`. -/
def Dungeon.NextPosition (d : Dungeon) (direction : Char) : Except Fault (Int × Int) :=
  if direction = 'u' then .ok (d.player_.r - 1, d.player_.c)
  else if direction = 'd' then .ok (d.player_.r + 1, d.player_.c)
  else if direction = 'l' then .ok (d.player_.r, d.player_.c - 1)
  else if direction = 'r' then .ok (d.player_.r, d.player_.c + 1)
  else .error .noReturn

/-- The body of the inner loop of `Dungeon::UpdateGrid` at the cell `(i, j)`. -/
def UpdateGridCell (r c i j : Int) (g : Grid) : Except Fault Grid :=
  if i = r ∧ j = c then .ok g
  else do
    let b ← g.read i j
    g.write i j (NextBlock b)

/-- The method `Dungeon::UpdateGrid`. -/
def Dungeon.UpdateGrid (d : Dungeon) : Except Fault Dungeon := do
  let g ← forLoop d.kSize (fun i g =>
    forLoop d.kSize (fun j g => UpdateGridCell d.player_.r d.player_.c i j g) g) d.grid_
  pure { d with grid_ := g }

/-- The method `Dungeon::UpdatePlayer`. -/
def Dungeon.UpdatePlayer (d : Dungeon) : Except Fault Dungeon := do
  let p := { d.player_ with hp := d.player_.hp - 30 }
  let b ← d.PlayerOnBlock
  if b = Block.kSmallWhite then
    pure { d with player_ := { p with hp := p.hp + 5, orb_count := max 0 (p.orb_count - 5) } }
  else if b = Block.kBorderWhite then
    pure { d with player_ := { p with hp := p.hp - 500 } }
  else if b = Block.kBlack then
    pure { d with player_ := { p with hp := p.hp - 25, orb_count := p.orb_count + 1 } }
  else
    pure { d with player_ := p }

/-- The method `Dungeon::Move`. -/
def Dungeon.Move (d : Dungeon) (direction : Char) : Except Fault Dungeon := do
  let next_position ← d.NextPosition direction
  let rf := next_position.1
  let cf := next_position.2
  if !d.IsInGrid rf cf then
    pure d
  else
    let d1 := { d with player_ := { d.player_ with r := rf, c := cf } }
    let d2 ← d1.UpdateGrid
    let d3 ← d2.UpdatePlayer
    let d4 := { d3 with past_moves_ := d3.past_moves_ ++ [direction] }
    if d4.player_.hp < 0 then
      pure { d4 with status_ := .kDead }
    else
      pure d4

/-- The method `Dungeon::Attack`. -/
def Dungeon.Attack (d : Dungeon) : Except Fault Dungeon := do
  let b ← d.PlayerOnBlock
  if b ≠ Block.kBigWhite then
    pure d
  else if d.player_.orb_count < 10 then
    pure d
  else
    pure { d with status_ := .kPassed }

/-- The method `Dungeon::Reset`. -/
def Dungeon.Reset (d : Dungeon) : Dungeon :=
  { d with
    grid_ := d.grid_initial_
    player_ := d.player_initial_
    status_ := .kRunning
    past_moves_ := [] }

/-- The constructor `Dungeon::Dungeon` (named `construct` here), given the stream of draws and the
position of the next draw; it also returns the position after its draws.
A negative `size` makes the vector constructor throw. -/
def Dungeon.construct (size desired_orb_count initial_hp : Int) (rng : Nat → Nat) (pos : Nat) :
    Except Fault (Dungeon × Nat) := do
  if size < 0 then
    throw Fault.lengthError
  let g0 : Grid := List.replicate size.toNat (List.replicate size.toNat Block.kSmallWhite)
  let filled ← forLoop size (fun i s =>
    forLoop size (fun j (s : Grid × Nat) => do
      let draw := RandInt rng s.2
      let g ← s.1.write i j (((draw.1 % 4 : Nat) : Int))
      pure (g, draw.2)) s) (g0, pos)
  let g ← filled.1.write 1 1 Block.kBigWhite
  let player := NewPlayer initial_hp
  pure ({ kSize := size
          kDesiredOrbCount := desired_orb_count
          grid_initial_ := g
          grid_ := g
          player_initial_ := player
          player_ := player }, filled.2)

/-- The method `Dungeon::Set`; a failed `assert` aborts the program.  The
sizes are compared as `size_t`, which agrees with the comparison of integers
for the non-negative `kSize` of a constructed dungeon. -/
def Dungeon.Set (d : Dungeon) (grid : List (List Int)) : Except Fault Dungeon := do
  if (grid.length : Int) ≠ d.kSize then
    throw Fault.assertFailed
  let row0 ← vecGet grid 0
  if (row0.length : Int) ≠ d.kSize then
    throw Fault.assertFailed
  let g ← forLoop d.kSize (fun i g =>
    forLoop d.kSize (fun j (g : Grid) => do
      let v ← Grid.read grid i j
      g.write i j v) g) d.grid_
  let b ← g.read 1 1
  if b ≠ Block.kBigWhite then
    throw Fault.assertFailed
  pure { d with grid_ := g }

/-- The class `DungeonRunner`: its data member. -/
structure DungeonRunner where
  dungeon_ : Dungeon
  deriving DecidableEq, Repr

/-- The member `DungeonRunner::kDirections`. -/
def kDirections : List Char := ['u', 'd', 'l', 'r']

/-- First loop of the body of `Try`: the directions whose next position is
inside the grid, in the order of `kDirections`. -/
def possibleDirections (d : Dungeon) : Except Fault (List Char) :=
  kDirections.foldlM (fun acc direction => do
    let next_position ← d.NextPosition direction
    if d.IsInGrid next_position.1 next_position.2 then
      pure (acc ++ [direction])
    else
      pure acc) []

/-- Second loop of the body of `Try`: the directions of `possible` whose next
tile is not `kBorderWhite`. -/
def idealDirections (d : Dungeon) (possible : List Char) : Except Fault (List Char) :=
  possible.foldlM (fun acc c => do
    let next_position ← d.NextPosition c
    let b ← d.grid_.read next_position.1 next_position.2
    if b ≠ Block.kBorderWhite then
      pure (acc ++ [c])
    else
      pure acc) []

/-- The direction that one iteration of `Try` passes to `Move`, with the
position of the draw after the one it uses. -/
def chooseDirection (d : Dungeon) (rng : Nat → Nat) (pos : Nat) : Except Fault (Char × Nat) := do
  let possible_directions ← possibleDirections d
  let ideal_directions ← idealDirections d possible_directions
  let possible_directions :=
    if !ideal_directions.isEmpty then ideal_directions else possible_directions
  let draw := RandInt rng pos
  if possible_directions.length = 0 then
    throw Fault.divByZero
  let direction ← vecGet possible_directions ((draw.1 % possible_directions.length : Nat) : Int)
  pure (direction, draw.2)

/-- One iteration of the `while` loop of `DungeonRunner::Try`. -/
def TryStep (d : Dungeon) (rng : Nat → Nat) (pos : Nat) : Except Fault (Dungeon × Nat) := do
  let choice ← chooseDirection d rng pos
  let d1 ← d.Move choice.1
  let b ← d1.PlayerOnBlock
  if b = Block.kBigWhite then
    let d2 ← d1.Attack
    pure (d2, choice.2)
  else
    pure (d1, choice.2)

/-- The `while` loop of `DungeonRunner::Try`, with at most `fuel` iterations. -/
def TryLoop (rng : Nat → Nat) : Nat → Dungeon → Nat → Except Fault (Dungeon × Nat)
  | 0, d, pos =>
      if d.status_ = DungeonStatus.kRunning then .error Fault.outOfFuel else .ok (d, pos)
  | fuel + 1, d, pos =>
      if d.status_ = DungeonStatus.kRunning then
        match TryStep d rng pos with
        | .ok next => TryLoop rng fuel next.1 next.2
        | .error e => .error e
      else .ok (d, pos)

/-- The method `DungeonRunner::Try`: whether the attempt passed, the runner
after it, and the position of the next draw. -/
def DungeonRunner.Try (self : DungeonRunner) (rng : Nat → Nat) (pos fuel : Nat) :
    Except Fault (Bool × DungeonRunner × Nat) := do
  let played ← TryLoop rng fuel self.dungeon_.Reset pos
  pure (decide (played.1.status_ = DungeonStatus.kPassed), { dungeon_ := played.1 }, played.2)

/-- A grid with `n` rows of `n` cells each. -/
def Grid.Square (g : Grid) (n : Nat) : Prop :=
  g.length = n ∧ ∀ row ∈ g, row.length = n

/-- The shape that the constructor gives a dungeon and every method keeps:
`grid_` has `kSize` rows of `kSize` cells. -/
def Dungeon.WellFormed (d : Dungeon) : Prop :=
  0 ≤ d.kSize ∧ d.grid_.Square d.kSize.toNat

/-- A call of one of the public mutating methods of `Dungeon`. -/
inductive Call where
  | Move (direction : Char)
  | Attack
  | Set (grid : List (List Int))
  | Reset
  deriving DecidableEq, Repr

/-- Perform one call on a dungeon. -/
def Call.apply : Call → Dungeon → Except Fault Dungeon
  | .Move direction, d => d.Move direction
  | .Attack, d => d.Attack
  | .Set grid, d => d.Set grid
  | .Reset, d => .ok d.Reset

/-- Perform a sequence of calls, first to last, stopping at the first fault. -/
def runCalls : List Call → Dungeon → Except Fault Dungeon
  | [], d => .ok d
  | call :: rest, d =>
      match call.apply d with
      | .ok d' => runCalls rest d'
      | .error e => .error e

/-- The value that `UpdateGrid` gives the cell `(i, j)` holding `v`, for the
player at `(r, c)`. -/
def advanced (r c i j : Int) (v : Block) : Block :=
  if i = r ∧ j = c then v else NextBlock v

/-- The player after `UpdatePlayer` when the tile under the player is `b`. -/
def landed (b : Block) (p : Player) : Player :=
  if b = Block.kSmallWhite then
    { p with hp := p.hp - 30 + 5, orb_count := max 0 (p.orb_count - 5) }
  else if b = Block.kBorderWhite then
    { p with hp := p.hp - 30 - 500 }
  else if b = Block.kBlack then
    { p with hp := p.hp - 30 - 25, orb_count := p.orb_count + 1 }
  else
    { p with hp := p.hp - 30 }

instance instDecidableSquare (g : Grid) (n : Nat) : Decidable (g.Square n) := by
  unfold Grid.Square; infer_instance

instance instDecidableWellFormed (d : Dungeon) : Decidable d.WellFormed := by
  unfold Dungeon.WellFormed; infer_instance

/-- A dungeon of size 3 as the constructor leaves it, with 100 health points. -/
def exampleDungeon : Dungeon :=
  { kSize := 3
    kDesiredOrbCount := 10
    grid_initial_ := [[1, 1, 2], [3, 3, 0], [3, 2, 1]]
    grid_ := [[1, 1, 2], [3, 3, 0], [3, 2, 1]]
    player_initial_ := NewPlayer 100
    player_ := NewPlayer 100 }

/-- The example dungeon with the player in the top left corner. -/
def cornerDungeon : Dungeon :=
  { exampleDungeon with player_ := { r := 0, c := 0, hp := 45, orb_count := 0 } }

/-- The example dungeon with the player on the tile `(1, 1)` holding nine orbs. -/
def nineOrbsDungeon : Dungeon :=
  { exampleDungeon with player_ := { r := 1, c := 1, hp := 100, orb_count := 9 } }

/-- The draws of a run of the program: nine for the grid of the constructor,
then one for each move of the attempt. -/
def lethalDraws : Nat → Nat :=
  fun i => [1, 1, 2, 3, 3, 0, 3, 2, 1, 0, 2, 0, 1, 1, 1, 1, 1, 0, 0, 1, 1, 0, 2, 0, 1, 0].getD i 0

/-- The moves that the attempt makes for the draws `lethalDraws`. -/
def lethalMoves : List Char :=
  ['d', 'r', 'u', 'l', 'r', 'l', 'd', 'l', 'u', 'u', 'r', 'l', 'd', 'r', 'u', 'l', 'r']

/-- The dungeon after the moves `lethalMoves` from 759 health points: the last
move has taken the health to -1 on a `kBigWhite` tile, with ten orbs. -/
def deadOnSanctuary : Dungeon :=
  { status_ := .kDead
    kSize := 3
    kDesiredOrbCount := 10
    grid_initial_ := [[1, 1, 2], [3, 3, 0], [3, 2, 1]]
    grid_ := [[3, 3, 3], [2, 1, 3], [3, 1, 1]]
    player_initial_ := NewPlayer 759
    player_ := { r := 0, c := 1, hp := -1, orb_count := 10 }
    past_moves_ := lethalMoves }

/-- The dungeon after the same moves from 760 health points, each followed by
an `Attack` when on `kBigWhite`: passed with no health left. -/
def passedDungeon : Dungeon :=
  { status_ := .kPassed
    kSize := 3
    kDesiredOrbCount := 10
    grid_initial_ := [[1, 1, 2], [3, 3, 0], [3, 2, 1]]
    grid_ := [[3, 3, 3], [2, 1, 3], [3, 1, 1]]
    player_initial_ := NewPlayer 760
    player_ := { r := 0, c := 1, hp := 0, orb_count := 10 }
    past_moves_ := lethalMoves }

/-- Two dungeons with the same constants and the same initial snapshot. -/
def Dungeon.SameSnapshot (d d' : Dungeon) : Prop :=
  d'.kSize = d.kSize ∧ d'.kDesiredOrbCount = d.kDesiredOrbCount ∧
    d'.grid_initial_ = d.grid_initial_ ∧ d'.player_initial_ = d.player_initial_

/-- A sequence of calls with moves, attacks, a new layout and a reset. -/
def exampleCalls : List Call :=
  [.Move 'd', .Attack, .Set [[0, 1, 2], [3, 3, 1], [2, 2, 0]], .Move 'u', .Reset, .Move 'l',
    .Attack, .Move 'r']

/-- The example dungeon after the calls `exampleCalls`. -/
def afterExampleCalls : Dungeon :=
  { exampleDungeon with
    grid_ := [[3, 3, 0], [0, 0, 2], [1, 0, 3]]
    player_ := { r := 1, c := 1, hp := 45, orb_count := 0 }
    past_moves_ := ['l', 'r'] }

/-- Every cell of the grid holds one of the four enumerators of `Block`. -/
def Grid.Tiles (g : Grid) : Prop :=
  ∀ row ∈ g, ∀ v ∈ row, (0 : Int) ≤ v ∧ v < 4

instance instDecidableTiles (g : Grid) : Decidable g.Tiles := by
  unfold Grid.Tiles; infer_instance

/-- The invariant of the dungeons that play can reach for a size of at least 2:
the grid and the initial grid are `kSize` by `kSize`, and the player and the
initial player stand inside the grid. -/
def Dungeon.Valid (d : Dungeon) : Prop :=
  d.WellFormed ∧ 2 ≤ d.kSize ∧ d.IsInGrid d.player_.r d.player_.c = true ∧
    d.grid_initial_.Square d.kSize.toNat ∧
    (0 ≤ d.player_initial_.r ∧ d.player_initial_.r < d.kSize) ∧
    (0 ≤ d.player_initial_.c ∧ d.player_initial_.c < d.kSize)

instance instDecidableValid (d : Dungeon) : Decidable d.Valid := by
  unfold Dungeon.Valid; infer_instance

/-- A call of `Move` in one of the four directions, of `Attack` or of `Reset`. -/
def Call.isPlain : Call → Bool
  | .Move direction => decide (direction ∈ kDirections)
  | .Attack => true
  | .Set _ => false
  | .Reset => true

/-- A sequence of plain calls. -/
def plainCalls : List Call :=
  [.Move 'd', .Attack, .Move 'u', .Move 'u', .Move 'u', .Reset, .Move 'l', .Attack, .Move 'r']

/-- Whether the next position in a direction lies inside the grid. -/
def legal (d : Dungeon) (direction : Char) : Bool :=
  match d.NextPosition direction with
  | .ok t => d.IsInGrid t.1 t.2
  | .error _ => false

/-- Whether the tile at the next position in a direction is `kBorderWhite`. -/
def hazard (d : Dungeon) (direction : Char) : Bool :=
  match d.NextPosition direction with
  | .ok t =>
      match d.grid_.read t.1 t.2 with
      | .ok b => decide (b = Block.kBorderWhite)
      | .error _ => false
  | .error _ => false

/-- The candidate directions of one iteration of `Try`: the legal directions
whose next tile is not `kBorderWhite` when there is one, all the legal
directions otherwise. -/
def candidates (d : Dungeon) : List Char :=
  if ((kDirections.filter (legal d)).filter (fun c => !hazard d c)).isEmpty then
    kDirections.filter (legal d)
  else
    (kDirections.filter (legal d)).filter (fun c => !hazard d c)

/-- The member `DungeonRunner::kDirectionFull` read with `at`, which throws
`std::out_of_range` for a character that is not a key of the map. -/
def kDirectionFull (c : Char) : Except Fault String :=
  if c = 'u' then .ok "Up"
  else if c = 'd' then .ok "Down"
  else if c = 'l' then .ok "Left"
  else if c = 'r' then .ok "Right"
  else .error Fault.outOfRange

/-- The method `DungeonRunner::MovesToString`. -/
def MovesToString (moves : List Char) : Except Fault String :=
  forLoop (moves.length : Int) (fun i ret => do
    let c ← vecGet moves i
    let name ← kDirectionFull c
    let ret := ret ++ name
    if i ≠ (moves.length : Int) - 1 then
      pure (ret ++ " -> ")
    else
      pure ret) ""

/-- What a call of `Run` leaves behind: the text printed after
`Solution found: ` when there is one, the runner, the position of the next
draw, and for each call of `Try`, in order, the value it returned with the move
history it left. -/
structure RunResult where
  solution : Option String
  runner : DungeonRunner
  pos : Nat
  tries : List (Bool × List Char)
  deriving DecidableEq, Repr

/-- The loop of `DungeonRunner::Run` with `remaining` iterations left; every
call of `Try` gets the fuel `fuel`. -/
def RunLoop (rng : Nat → Nat) (fuel : Nat) :
    Nat → DungeonRunner → Nat → Except Fault RunResult
  | 0, self, pos => .ok { solution := none, runner := self, pos := pos, tries := [] }
  | remaining + 1, self, pos =>
      match self.Try rng pos fuel with
      | .error e => .error e
      | .ok (found, next, pos') =>
          if found then
            match MovesToString next.dungeon_.past_moves_ with
            | .error e => .error e
            | .ok text =>
                .ok { solution := some text
                      runner := next
                      pos := pos'
                      tries := [(true, next.dungeon_.past_moves_)] }
          else
            match RunLoop rng fuel remaining next pos' with
            | .error e => .error e
            | .ok res => .ok { res with tries := (false, next.dungeon_.past_moves_) :: res.tries }

/-- The method `DungeonRunner::Run`: the loop `for (i = 1; i <= try_count; ++i)`
makes `try_count` iterations, none when `try_count` is not positive. -/
def DungeonRunner.Run (self : DungeonRunner) (rng : Nat → Nat) (pos fuel : Nat)
    (try_count : Int) : Except Fault RunResult :=
  RunLoop rng fuel try_count.toNat self pos

/-- A call of `Move` in one of the four directions or of `Attack`. -/
def Call.isPlay : Call → Bool
  | .Move direction => decide (direction ∈ kDirections)
  | .Attack => true
  | .Set _ => false
  | .Reset => false

/-- The landing positions of the accepted moves of a sequence of calls, in
order: a `Move` whose next position is inside the grid contributes that
position, a rejected `Move` and the other calls contribute nothing. -/
def landings : List Call → Dungeon → List (Int × Int)
  | [], _ => []
  | call :: rest, d =>
      match call.apply d with
      | .error _ => []
      | .ok d' =>
          match call with
          | .Move direction =>
              match d.NextPosition direction with
              | .ok t => if d.IsInGrid t.1 t.2 then t :: landings rest d' else landings rest d'
              | .error _ => landings rest d'
          | _ => landings rest d'

/-- A sequence of moves and attacks, with a rejected move. -/
def playCalls : List Call :=
  [.Move 'd', .Move 'd', .Attack, .Move 'u', .Move 'l', .Attack, .Move 'r', .Move 'd']

/-- The full name that the map `kDirectionFull` gives a direction; the empty
text for a character that is not a key of the map. -/
def directionName (c : Char) : String :=
  if c = 'u' then "Up"
  else if c = 'd' then "Down"
  else if c = 'l' then "Left"
  else if c = 'r' then "Right"
  else ""

/-- Specification of the text of a solution: the full names of the moves, in
order, with ` -> ` between two names. -/
def solutionText (moves : List Char) : String :=
  " -> ".intercalate (moves.map directionName)

/-- Specification of `n` consecutive attempts: the calls of `Try` made one
after the other from a runner, whatever they return, with the dungeons they
leave, in order, the runner after the last one and the position of the next
draw. -/
def consecutiveTries (rng : Nat → Nat) (fuel : Nat) :
    Nat → DungeonRunner → Nat → Except Fault (List Dungeon × DungeonRunner × Nat)
  | 0, self, pos => .ok ([], self, pos)
  | n + 1, self, pos =>
      match self.Try rng pos fuel with
      | .error e => .error e
      | .ok (_, next, pos') =>
          match consecutiveTries rng fuel n next pos' with
          | .error e => .error e
          | .ok (ends, last, pos'') => .ok (next.dungeon_ :: ends, last, pos'')

/-- What is left to add to the text `ret` of `MovesToString` when the names
`l` are still to come. -/
def pendingText (l : List String) (ret : String) : String :=
  match l with
  | [] => ret
  | a :: rest => String.intercalate.go (ret ++ a) " -> " rest

/-- The example dungeon with 760 health points. -/
def richDungeon : Dungeon :=
  { exampleDungeon with player_initial_ := NewPlayer 760, player_ := NewPlayer 760 }

/-- Draws for two attempts from `richDungeon`: seventeen draws of 1, then the
draws of the moves `lethalMoves`. -/
def twoAttemptDraws : Nat → Nat :=
  fun i =>
    [1, 1, 1, 1, 1, 1, 1, 1, 1, 1, 1, 1, 1, 1, 1, 1, 1,
      0, 2, 0, 1, 1, 1, 1, 1, 0, 0, 1, 1, 0, 2, 0, 1, 0].getD i 0
/-! ## Vector and grid access -/

theorem vecGet_eq_ok {α : Type} {v : List α} {i : Int} {a : α} :
    vecGet v i = .ok a ↔ 0 ≤ i ∧ v[i.toNat]? = some a := by
  unfold vecGet
  by_cases hi : i < 0
  · simp [hi]
  · simp only [hi, if_false]
    have h0 : 0 ≤ i := by omega
    cases hv : v[i.toNat]? with
    | none => simp [h0]
    | some b => simp [h0]

theorem vecSet_eq_ok {α : Type} {v w : List α} {i : Int} {a : α} :
    vecSet v i a = .ok w ↔ (0 ≤ i ∧ i.toNat < v.length) ∧ w = v.set i.toNat a := by
  unfold vecSet
  by_cases h : 0 ≤ i ∧ i.toNat < v.length
  · simp [h, eq_comm]
  · simp [h]

theorem Grid.read_eq_ok {g : Grid} {i j : Int} {b : Block} :
    g.read i j = .ok b ↔
      0 ≤ i ∧ 0 ≤ j ∧ ∃ row, g[i.toNat]? = some row ∧ row[j.toNat]? = some b := by
  unfold Grid.read
  cases hrow : vecGet g i with
  | error e =>
      simp only [bind, Except.bind]
      constructor
      · intro h; cases h
      · rintro ⟨hi, _, row, hr, _⟩
        have := (vecGet_eq_ok (v := g) (i := i) (a := row)).2 ⟨hi, hr⟩
        rw [hrow] at this; cases this
  | ok row =>
      simp only [bind, Except.bind]
      obtain ⟨hi, hr⟩ := vecGet_eq_ok.1 hrow
      rw [vecGet_eq_ok]
      constructor
      · rintro ⟨hj, hb⟩; exact ⟨hi, hj, row, hr, hb⟩
      · rintro ⟨_, hj, row', hr', hb⟩
        rw [hr] at hr'; cases hr'; exact ⟨hj, hb⟩

theorem Grid.read_ok_of_square {g : Grid} {n : Nat} (hg : g.Square n) {i j : Int}
    (hi0 : 0 ≤ i) (hi : i < n) (hj0 : 0 ≤ j) (hj : j < n) : ∃ b, g.read i j = .ok b := by
  obtain ⟨hlen, hrows⟩ := hg
  have hi' : i.toNat < g.length := by omega
  have hrow : g[i.toNat]? = some (g[i.toNat]) := List.getElem?_eq_getElem hi'
  have hrl : (g[i.toNat]).length = n := hrows _ (List.getElem_mem hi')
  have hj' : j.toNat < (g[i.toNat]).length := by omega
  exact ⟨(g[i.toNat])[j.toNat], Grid.read_eq_ok.2
    ⟨hi0, hj0, _, hrow, List.getElem?_eq_getElem hj'⟩⟩

theorem Grid.read_ok_bounds {g : Grid} {n : Nat} (hg : g.Square n) {i j : Int} {b : Block}
    (h : g.read i j = .ok b) : 0 ≤ i ∧ i < n ∧ 0 ≤ j ∧ j < n := by
  obtain ⟨hlen, hrows⟩ := hg
  obtain ⟨hi0, hj0, row, hr, hb⟩ := Grid.read_eq_ok.1 h
  obtain ⟨hi', hri⟩ := List.getElem?_eq_some_iff.1 hr
  obtain ⟨hj', _⟩ := List.getElem?_eq_some_iff.1 hb
  have hrl : row.length = n := hrows _ (hri ▸ List.getElem_mem hi')
  omega

theorem Grid.write_spec {g : Grid} {i j : Int} {v : Block} (b : Block)
    (h : g.read i j = .ok v) :
    ∃ g', g.write i j b = .ok g' ∧ (∀ n, g.Square n → g'.Square n) ∧
      g'.read i j = .ok b ∧
      ∀ i' j' w, ¬(i' = i ∧ j' = j) → (g'.read i' j' = .ok w ↔ g.read i' j' = .ok w) := by
  obtain ⟨hi0, hj0, row, hr, hb⟩ := Grid.read_eq_ok.1 h
  obtain ⟨hi', hri⟩ := List.getElem?_eq_some_iff.1 hr
  obtain ⟨hj', _⟩ := List.getElem?_eq_some_iff.1 hb
  refine ⟨g.set i.toNat (row.set j.toNat b), ?_, ?_, ?_, ?_⟩
  · unfold Grid.write
    rw [vecGet_eq_ok.2 ⟨hi0, hr⟩]
    simp only [bind, Except.bind]
    rw [vecSet_eq_ok.2 ⟨⟨hj0, hj'⟩, rfl⟩]
    simp only []
    exact vecSet_eq_ok.2 ⟨⟨hi0, hi'⟩, rfl⟩
  · rintro n ⟨hlen, hrows⟩
    refine ⟨by simpa using hlen, ?_⟩
    intro r hrmem
    rcases List.mem_or_eq_of_mem_set hrmem with hm | he
    · exact hrows _ hm
    · rw [he, List.length_set]; exact hrows _ (hri ▸ List.getElem_mem hi')
  · refine Grid.read_eq_ok.2 ⟨hi0, hj0, row.set j.toNat b, ?_, ?_⟩
    · simp [List.getElem?_set, hi']
    · simp [List.getElem?_set, hj']
  · intro i' j' w hne
    rw [Grid.read_eq_ok, Grid.read_eq_ok]
    refine and_congr_right (fun hi0' => and_congr_right (fun hj0' => ?_))
    by_cases hii : i' = i
    · subst hii
      have hjj : j.toNat ≠ j'.toNat := by
        intro e; apply hne; exact ⟨rfl, by omega⟩
      constructor
      · rintro ⟨row', hr', hb'⟩
        have : row' = row.set j.toNat b := by
          simpa [List.getElem?_set, hi', eq_comm] using hr'
        subst this
        rw [List.getElem?_set_ne hjj] at hb'
        exact ⟨row, hr, hb'⟩
      · rintro ⟨row', hr', hb'⟩
        rw [hr] at hr'; cases hr'
        refine ⟨row.set j.toNat b, by simp [List.getElem?_set, hi'], ?_⟩
        rw [List.getElem?_set_ne hjj]; exact hb'
    · have hnn : i.toNat ≠ i'.toNat := by
        intro e; apply hii; omega
      rw [List.getElem?_set_ne hnn]

/-! ## The `for` loop -/

theorem forLoop_inv {σ : Type} (n : Int) (body : Int → σ → Except Fault σ) (s : σ)
    (P : Nat → σ → Prop) (h0 : P 0 s)
    (hstep : ∀ (k : Nat) (t : σ), (k : Int) < n → P k t →
      ∃ t', body (k : Int) t = .ok t' ∧ P (k + 1) t') :
    ∃ t, forLoop n body s = .ok t ∧ P n.toNat t := by
  unfold forLoop
  have key : ∀ m : Nat, m ≤ n.toNat →
      ∃ t, (List.range m).foldlM (fun acc (i : Nat) => body (i : Int) acc) s = .ok t ∧ P m t := by
    intro m
    induction m with
    | zero => intro _; exact ⟨s, rfl, h0⟩
    | succ m ih =>
        intro hm
        obtain ⟨t, ht, hP⟩ := ih (by omega)
        obtain ⟨t', ht', hP'⟩ := hstep m t (by omega) hP
        refine ⟨t', ?_, hP'⟩
        rw [List.range_succ, List.foldlM_append, ht]
        simp only [bind, Except.bind, List.foldlM, pure, Except.pure]
        rw [ht']
  exact key n.toNat (le_refl _)

theorem forLoop_nonpos {σ : Type} {n : Int} (hn : n ≤ 0) (body : Int → σ → Except Fault σ)
    (s : σ) : forLoop n body s = .ok s := by
  unfold forLoop
  have : n.toNat = 0 := by omega
  rw [this]; rfl

/-! ## `UpdateGrid` -/

theorem UpdateGridCell_spec {g0 g : Grid} {n : Nat} (r c : Int) (i k : Nat)
    (hi : i < n) (hk : k < n) (h0 : g0.Square n) (hsq : g.Square n)
    (hinv : ∀ (i' j' : Int) (v : Block), g0.read i' j' = .ok v →
      g.read i' j' = .ok (if i' < i ∨ (i' = i ∧ j' < k) then advanced r c i' j' v else v)) :
    ∃ g', UpdateGridCell r c i k g = .ok g' ∧ g'.Square n ∧
      ∀ (i' j' : Int) (v : Block), g0.read i' j' = .ok v →
        g'.read i' j' =
          .ok (if i' < i ∨ (i' = i ∧ j' < (k + 1 : Nat)) then advanced r c i' j' v else v) := by
  obtain ⟨v0, hv0⟩ := Grid.read_ok_of_square h0 (i := (i : Int)) (j := (k : Int))
    (by omega) (by omega) (by omega) (by omega)
  have hcur : g.read i k = .ok v0 := by
    have := hinv i k v0 hv0
    simpa using this
  unfold UpdateGridCell
  by_cases hp : (i : Int) = r ∧ (k : Int) = c
  · refine ⟨g, by simp [hp], hsq, ?_⟩
    intro i' j' v hv
    rw [hinv i' j' v hv]
    by_cases hcell : i' = (i : Int) ∧ j' = (k : Int)
    · obtain ⟨rfl, rfl⟩ := hcell
      simp [advanced, hp]
    · have : (i' < (i : Int) ∨ (i' = i ∧ j' < ((k + 1 : Nat) : Int))) ↔
          (i' < (i : Int) ∨ (i' = i ∧ j' < (k : Int))) := by
        push_cast; constructor <;> intro h <;> omega
      simp only [this]
  · obtain ⟨g', hw, hsq', hsame, hother⟩ := Grid.write_spec (NextBlock v0) hcur
    refine ⟨g', ?_, hsq' n hsq, ?_⟩
    · simp only [hp, if_false, hcur, bind, Except.bind]
      exact hw
    · intro i' j' v hv
      by_cases hcell : i' = (i : Int) ∧ j' = (k : Int)
      · obtain ⟨rfl, rfl⟩ := hcell
        rw [hv0] at hv; cases hv
        rw [hsame]
        have : ((k : Int) < ((k + 1 : Nat) : Int)) := by push_cast; omega
        simp [advanced, hp, this]
      · rw [(hother i' j' _ hcell).2 (hinv i' j' v hv)]
        have : (i' < (i : Int) ∨ (i' = i ∧ j' < ((k + 1 : Nat) : Int))) ↔
            (i' < (i : Int) ∨ (i' = i ∧ j' < (k : Int))) := by
          push_cast; constructor <;> intro h <;> omega
        simp only [this]

theorem UpdateGrid_loop_spec {g0 : Grid} {n : Nat} (r c : Int) (h0 : g0.Square n) :
    ∃ g', forLoop (n : Int) (fun i g =>
        forLoop (n : Int) (fun j g => UpdateGridCell r c i j g) g) g0 = .ok g' ∧
      g'.Square n ∧
      ∀ (i j : Int) (v : Block), g0.read i j = .ok v →
        g'.read i j = .ok (advanced r c i j v) := by
  obtain ⟨g', hrun, hsq, hcells⟩ := forLoop_inv (n : Int)
    (fun i g => forLoop (n : Int) (fun j g => UpdateGridCell r c i j g) g) g0
    (fun i g => g.Square n ∧ ∀ (i' j' : Int) (v : Block), g0.read i' j' = .ok v →
      g.read i' j' = .ok (if i' < i then advanced r c i' j' v else v))
    ⟨h0, by
      intro i' j' v hv
      have := (Grid.read_ok_bounds h0 hv).1
      have hlt : ¬ i' < ((0 : Nat) : Int) := by push_cast; omega
      simp only [hlt, if_false]; exact hv⟩
    (by
      intro i g hi ⟨hsq, hinv⟩
      obtain ⟨g', hrun, hsq', hcells⟩ := forLoop_inv (n : Int)
        (fun j g => UpdateGridCell r c i j g) g
        (fun k g => g.Square n ∧ ∀ (i' j' : Int) (v : Block), g0.read i' j' = .ok v →
          g.read i' j' =
            .ok (if i' < i ∨ (i' = i ∧ j' < k) then advanced r c i' j' v else v))
        ⟨hsq, by
          intro i' j' v hv
          rw [hinv i' j' v hv]
          have := (Grid.read_ok_bounds h0 hv).2.2.1
          have : (i' < (i : Int) ∨ (i' = i ∧ j' < ((0 : Nat) : Int))) ↔ i' < (i : Int) := by
            push_cast; constructor <;> intro h <;> omega
          simp only [this]⟩
        (by
          intro k g hk ⟨hsq, hinv⟩
          exact UpdateGridCell_spec r c i k (by omega) (by omega) h0 hsq hinv)
      refine ⟨g', hrun, hsq', ?_⟩
      intro i' j' v hv
      rw [hcells i' j' v hv]
      have hb := Grid.read_ok_bounds h0 hv
      have : (i' < (i : Int) ∨ (i' = i ∧ j' < (((n : Int).toNat : Nat) : Int))) ↔
          i' < ((i + 1 : Nat) : Int) := by
        push_cast; simp only [Int.toNat_ofNat]; constructor <;> intro h <;> omega
      simp only [this])
  refine ⟨g', hrun, hsq, ?_⟩
  intro i j v hv
  rw [hcells i j v hv]
  have hb := Grid.read_ok_bounds h0 hv
  have : i < (((n : Int).toNat : Nat) : Int) := by simp only [Int.toNat_ofNat]; omega
  simp only [this, if_true]

/-! ## `Move` and `Attack` -/

theorem IsInGrid_iff {d : Dungeon} (hwf : d.WellFormed) (row column : Int) :
    d.IsInGrid row column = true ↔
      0 ≤ row ∧ row < d.kSize ∧ 0 ≤ column ∧ column < d.kSize := by
  obtain ⟨hk, hlen, hrows⟩ := hwf
  unfold Dungeon.IsInGrid
  simp only [Bool.and_eq_true, decide_eq_true_eq]
  have hl : (d.grid_.length : Int) = d.kSize := by omega
  rw [hl]
  constructor
  · rintro ⟨⟨⟨h1, h2⟩, h3⟩, h4⟩
    refine ⟨h1, h2, h3, ?_⟩
    cases hg : d.grid_ with
    | nil => rw [hg] at hlen; simp at hlen; omega
    | cons row0 rest =>
        rw [hg] at h4
        have := hrows row0 (by rw [hg]; simp)
        simp only [List.headD_cons] at h4
        omega
  · rintro ⟨h1, h2, h3, h4⟩
    refine ⟨⟨⟨h1, h2⟩, h3⟩, ?_⟩
    cases hg : d.grid_ with
    | nil => rw [hg] at hlen; simp at hlen; omega
    | cons row0 rest =>
        have := hrows row0 (by rw [hg]; simp)
        simp only [List.headD_cons]
        omega

theorem UpdatePlayer_eq {d : Dungeon} {b : Block} (h : d.PlayerOnBlock = .ok b) :
    d.UpdatePlayer = .ok { d with player_ := landed b d.player_ } := by
  unfold Dungeon.UpdatePlayer landed
  rw [h]
  simp only [bind, Except.bind, pure, Except.pure]
  split_ifs <;> simp

theorem UpdateGrid_eq {d : Dungeon} (hwf : d.WellFormed) :
    ∃ g', d.UpdateGrid = .ok { d with grid_ := g' } ∧ g'.Square d.kSize.toNat ∧
      ∀ (i j : Int) (v : Block), d.grid_.read i j = .ok v →
        g'.read i j = .ok (advanced d.player_.r d.player_.c i j v) := by
  obtain ⟨hk, hsq⟩ := hwf
  obtain ⟨g', hrun, hsq', hcells⟩ := UpdateGrid_loop_spec d.player_.r d.player_.c hsq
  refine ⟨g', ?_, hsq', hcells⟩
  unfold Dungeon.UpdateGrid
  have hkk : ((d.kSize.toNat : Nat) : Int) = d.kSize := Int.toNat_of_nonneg hk
  rw [hkk] at hrun
  rw [hrun]
  rfl

theorem Move_accepted_eq {d : Dungeon} {direction : Char} {t : Int × Int}
    (hwf : d.WellFormed) (ht : d.NextPosition direction = .ok t)
    (hin : d.IsInGrid t.1 t.2 = true) :
    ∃ g' k, d.grid_.read t.1 t.2 = .ok k ∧ g'.Square d.kSize.toNat ∧
      (∀ (i j : Int) (v : Block), d.grid_.read i j = .ok v →
        g'.read i j = .ok (advanced t.1 t.2 i j v)) ∧
      d.Move direction = .ok
        { d with
          status_ :=
            if (landed k { d.player_ with r := t.1, c := t.2 }).hp < 0 then .kDead
            else d.status_
          grid_ := g'
          player_ := landed k { d.player_ with r := t.1, c := t.2 }
          past_moves_ := d.past_moves_ ++ [direction] } := by
  obtain ⟨h1, h2, h3, h4⟩ := (IsInGrid_iff hwf t.1 t.2).1 hin
  obtain ⟨k, hk⟩ := Grid.read_ok_of_square hwf.2 (i := t.1) (j := t.2) h1
    (by have := hwf.1; omega) h3 (by have := hwf.1; omega)
  have hwf1 : Dungeon.WellFormed { d with player_ := { d.player_ with r := t.1, c := t.2 } } := hwf
  obtain ⟨g', hug, hsq', hcells⟩ := UpdateGrid_eq hwf1
  refine ⟨g', k, hk, hsq', hcells, ?_⟩
  have hk' : g'.read t.1 t.2 = .ok k := by
    have := hcells t.1 t.2 k hk
    simpa [advanced] using this
  unfold Dungeon.Move
  rw [ht]
  simp only [bind, Except.bind, hin, Bool.not_true, Bool.false_eq_true, if_false]
  rw [hug]
  simp only []
  rw [UpdatePlayer_eq
    (d := { d with player_ := { d.player_ with r := t.1, c := t.2 }, grid_ := g' }) (b := k) hk']
  simp only [pure, Except.pure]
  split_ifs <;> rfl

theorem Move_rejected_eq {d : Dungeon} {direction : Char} {t : Int × Int}
    (ht : d.NextPosition direction = .ok t) (hout : d.IsInGrid t.1 t.2 = false) :
    d.Move direction = .ok d := by
  unfold Dungeon.Move
  rw [ht]
  simp only [bind, Except.bind, hout, Bool.not_false, if_true, pure, Except.pure]

/-! ## Claims about `Move` -/

/-- C1: a `Move` in one of the directions `u d l r` whose target lies outside
the grid returns the dungeon unchanged (grid, player, status, move history and
every other member), and so does any number of repetitions of that move. -/
theorem Move_out_of_bounds_unchanged (d : Dungeon) (direction : Char) (t : Int × Int)
    (ht : d.NextPosition direction = .ok t) (hout : d.IsInGrid t.1 t.2 = false) :
    d.Move direction = .ok d ∧
      ∀ n : Nat, (fun s => s >>= fun x => Dungeon.Move x direction)^[n] (.ok d) = .ok d := by
  have h1 : d.Move direction = .ok d := Move_rejected_eq ht hout
  refine ⟨h1, ?_⟩
  intro n
  induction n with
  | zero => rfl
  | succ n ih =>
      rw [Function.iterate_succ_apply', ih]
      exact h1

theorem Move_out_of_bounds_unchanged_witness :
    (cornerDungeon.NextPosition 'u' = .ok (-1, 0) ∧ cornerDungeon.IsInGrid (-1) 0 = false) ∧
      (cornerDungeon.Move 'u' = .ok cornerDungeon ∧
        ∀ n : Nat, (fun s => s >>= fun x => Dungeon.Move x 'u')^[n] (.ok cornerDungeon) =
          .ok cornerDungeon) :=
  ⟨⟨by decide, by decide⟩,
    Move_out_of_bounds_unchanged cornerDungeon 'u' (-1, 0) (by decide) (by decide)⟩

theorem NextBlock_eq_emod {v : Block} (hv : 0 ≤ v) : NextBlock v = (v + 1) % 4 := by
  unfold NextBlock
  have hv' : (0 : Int) ≤ v := hv
  exact Int.tmod_eq_emod (by omega) (by decide)

/-- C2: a `Move` whose target `t` lies inside the grid of a well-formed dungeon
succeeds, puts the player at `t`, keeps the cell at `t`, replaces the value `v`
of every other cell by `NextBlock v`, which is `(v + 1) mod 4` for the tile
values, keeps the shape of the grid, and appends the direction to the move
history. -/
theorem Move_accepted_position_grid_history (d : Dungeon) (direction : Char) (t : Int × Int)
    (hwf : d.WellFormed) (ht : d.NextPosition direction = .ok t)
    (hin : d.IsInGrid t.1 t.2 = true) :
    ∃ d', d.Move direction = .ok d' ∧
      d'.player_.r = t.1 ∧ d'.player_.c = t.2 ∧
      (∃ v, d.grid_.read t.1 t.2 = .ok v ∧ d'.grid_.read t.1 t.2 = .ok v) ∧
      (∀ (i j : Int) (v : Block), ¬(i = t.1 ∧ j = t.2) → d.grid_.read i j = .ok v →
        d'.grid_.read i j = .ok (NextBlock v) ∧ (0 ≤ v → NextBlock v = (v + 1) % 4)) ∧
      d'.kSize = d.kSize ∧ d'.WellFormed ∧
      d'.past_moves_ = d.past_moves_ ++ [direction] := by
  obtain ⟨g', k, hk, hsq, hcells, hmove⟩ := Move_accepted_eq hwf ht hin
  refine ⟨_, hmove, ?_, ?_, ⟨k, hk, ?_⟩, ?_, rfl, ⟨hwf.1, hsq⟩, rfl⟩
  · simp only [landed]; split_ifs <;> rfl
  · simp only [landed]; split_ifs <;> rfl
  · have := hcells t.1 t.2 k hk
    simpa [advanced] using this
  · intro i j v hne hv
    refine ⟨?_, NextBlock_eq_emod⟩
    have := hcells i j v hv
    simpa [advanced, hne] using this

theorem Move_accepted_position_grid_history_witness :
    (exampleDungeon.WellFormed ∧ exampleDungeon.NextPosition 'r' = .ok (1, 2) ∧
        exampleDungeon.IsInGrid 1 2 = true) ∧
      ∃ d', exampleDungeon.Move 'r' = .ok d' ∧
        d'.player_.r = 1 ∧ d'.player_.c = 2 ∧
        (∃ v, exampleDungeon.grid_.read 1 2 = .ok v ∧ d'.grid_.read 1 2 = .ok v) ∧
        (∀ (i j : Int) (v : Block), ¬(i = 1 ∧ j = 2) → exampleDungeon.grid_.read i j = .ok v →
          d'.grid_.read i j = .ok (NextBlock v) ∧ (0 ≤ v → NextBlock v = (v + 1) % 4)) ∧
        d'.kSize = exampleDungeon.kSize ∧ d'.WellFormed ∧
        d'.past_moves_ = exampleDungeon.past_moves_ ++ ['r'] :=
  ⟨⟨by decide, by decide, by decide⟩,
    Move_accepted_position_grid_history exampleDungeon 'r' (1, 2)
      (by decide) (by decide) (by decide)⟩

/-- C3: for an accepted `Move` onto a tile of kind `k` (read in the grid before
the move): `kSmallWhite` lowers the health by 25 and makes the orb count
`max 0 (orb_count - 5)`; `kBorderWhite` lowers the health by 530 and keeps the
orb count; `kBlack` lowers the health by 55 and adds one orb; `kBigWhite`
lowers the health by 30 and keeps the orb count. -/
theorem Move_accepted_health_orbs (d : Dungeon) (direction : Char) (t : Int × Int) (k : Block)
    (hwf : d.WellFormed) (ht : d.NextPosition direction = .ok t)
    (hin : d.IsInGrid t.1 t.2 = true) (hk : d.grid_.read t.1 t.2 = .ok k) :
    ∃ d', d.Move direction = .ok d' ∧
      (k = Block.kSmallWhite →
        d'.player_.hp = d.player_.hp - 25 ∧
          d'.player_.orb_count = max 0 (d.player_.orb_count - 5)) ∧
      (k = Block.kBorderWhite →
        d'.player_.hp = d.player_.hp - 530 ∧ d'.player_.orb_count = d.player_.orb_count) ∧
      (k = Block.kBlack →
        d'.player_.hp = d.player_.hp - 55 ∧ d'.player_.orb_count = d.player_.orb_count + 1) ∧
      (k = Block.kBigWhite →
        d'.player_.hp = d.player_.hp - 30 ∧ d'.player_.orb_count = d.player_.orb_count) := by
  obtain ⟨g', k', hk', hsq, hcells, hmove⟩ := Move_accepted_eq hwf ht hin
  rw [hk] at hk'; cases hk'
  refine ⟨_, hmove, ?_, ?_, ?_, ?_⟩
  · intro h; subst h
    simp [landed, Block.kSmallWhite]; ring
  · intro h; subst h
    simp [landed, Block.kSmallWhite, Block.kBorderWhite]; ring
  · intro h; subst h
    simp [landed, Block.kSmallWhite, Block.kBorderWhite, Block.kBlack]; ring
  · intro h; subst h
    simp [landed, Block.kSmallWhite, Block.kBorderWhite, Block.kBlack, Block.kBigWhite]

theorem Move_accepted_health_orbs_witness :
    (exampleDungeon.WellFormed ∧ exampleDungeon.NextPosition 'd' = .ok (2, 1) ∧
        exampleDungeon.IsInGrid 2 1 = true ∧ exampleDungeon.grid_.read 2 1 = .ok Block.kBlack) ∧
      ∃ d', exampleDungeon.Move 'd' = .ok d' ∧
        (Block.kBlack = Block.kSmallWhite →
          d'.player_.hp = exampleDungeon.player_.hp - 25 ∧
            d'.player_.orb_count = max 0 (exampleDungeon.player_.orb_count - 5)) ∧
        (Block.kBlack = Block.kBorderWhite →
          d'.player_.hp = exampleDungeon.player_.hp - 530 ∧
            d'.player_.orb_count = exampleDungeon.player_.orb_count) ∧
        (Block.kBlack = Block.kBlack →
          d'.player_.hp = exampleDungeon.player_.hp - 55 ∧
            d'.player_.orb_count = exampleDungeon.player_.orb_count + 1) ∧
        (Block.kBlack = Block.kBigWhite →
          d'.player_.hp = exampleDungeon.player_.hp - 30 ∧
            d'.player_.orb_count = exampleDungeon.player_.orb_count) :=
  ⟨⟨by decide, by decide, by decide, by decide⟩,
    Move_accepted_health_orbs exampleDungeon 'd' (2, 1) Block.kBlack
      (by decide) (by decide) (by decide) (by decide)⟩

/-- C4: after an accepted `Move` the status is `kDead` when the resulting
health is negative and the status before the move otherwise; a resulting health
of -1 gives `kDead`, a resulting health of 0 keeps the status. -/
theorem Move_accepted_status (d : Dungeon) (direction : Char) (t : Int × Int)
    (hwf : d.WellFormed) (ht : d.NextPosition direction = .ok t)
    (hin : d.IsInGrid t.1 t.2 = true) :
    ∃ d', d.Move direction = .ok d' ∧
      (d'.player_.hp < 0 → d'.status_ = DungeonStatus.kDead) ∧
      (0 ≤ d'.player_.hp → d'.status_ = d.status_) ∧
      (d'.player_.hp = -1 → d'.status_ = DungeonStatus.kDead) ∧
      (d'.player_.hp = 0 → d'.status_ = d.status_) := by
  obtain ⟨g', k, hk, hsq, hcells, hmove⟩ := Move_accepted_eq hwf ht hin
  refine ⟨_, hmove, ?_, ?_, ?_, ?_⟩
  · intro h; simp only at h ⊢; rw [if_pos h]
  · intro h; simp only at h ⊢; rw [if_neg (by omega)]
  · intro h; simp only at h ⊢; rw [if_pos (by omega)]
  · intro h; simp only at h ⊢; rw [if_neg (by omega)]

theorem Move_accepted_status_witness :
    (cornerDungeon.WellFormed ∧ cornerDungeon.NextPosition 'r' = .ok (0, 1) ∧
        cornerDungeon.IsInGrid 0 1 = true) ∧
      ∃ d', cornerDungeon.Move 'r' = .ok d' ∧
        (d'.player_.hp < 0 → d'.status_ = DungeonStatus.kDead) ∧
        (0 ≤ d'.player_.hp → d'.status_ = cornerDungeon.status_) ∧
        (d'.player_.hp = -1 → d'.status_ = DungeonStatus.kDead) ∧
        (d'.player_.hp = 0 → d'.status_ = cornerDungeon.status_) :=
  ⟨⟨by decide, by decide, by decide⟩,
    Move_accepted_status cornerDungeon 'r' (0, 1) (by decide) (by decide) (by decide)⟩

/-! ## Claims about `Attack` -/

/-- C5: when the player stands on `kBigWhite`, `Attack` succeeds and keeps the
grid, the player and the move history; the status becomes `kPassed` when
`orb_count >= 10` and is kept when `orb_count < 10`.  With nine orbs a running
dungeon keeps running, with ten orbs it is passed. -/
theorem Attack_on_sanctuary (d : Dungeon) (h : d.PlayerOnBlock = .ok Block.kBigWhite) :
    ∃ d', d.Attack = .ok d' ∧
      d'.grid_ = d.grid_ ∧ d'.player_ = d.player_ ∧ d'.past_moves_ = d.past_moves_ ∧
      (10 ≤ d.player_.orb_count → d'.status_ = DungeonStatus.kPassed) ∧
      (d.player_.orb_count < 10 → d'.status_ = d.status_) ∧
      (d.player_.orb_count = 9 → d.status_ = DungeonStatus.kRunning →
        d'.status_ = DungeonStatus.kRunning) ∧
      (d.player_.orb_count = 10 → d'.status_ = DungeonStatus.kPassed) := by
  unfold Dungeon.Attack
  rw [h]
  simp only [bind, Except.bind, ne_eq, not_true_eq_false, if_false, pure, Except.pure]
  by_cases ho : d.player_.orb_count < 10
  · rw [if_pos ho]
    refine ⟨d, rfl, rfl, rfl, rfl, ?_, fun _ => rfl, fun _ hs => hs, ?_⟩
    · intro h10; omega
    · intro h10; omega
  · rw [if_neg ho]
    refine ⟨_, rfl, rfl, rfl, rfl, fun _ => rfl, ?_, ?_, fun _ => rfl⟩
    · intro h10; omega
    · intro h9; omega

theorem Attack_on_sanctuary_witness :
    nineOrbsDungeon.PlayerOnBlock = .ok Block.kBigWhite ∧
      ∃ d', nineOrbsDungeon.Attack = .ok d' ∧
        d'.grid_ = nineOrbsDungeon.grid_ ∧ d'.player_ = nineOrbsDungeon.player_ ∧
        d'.past_moves_ = nineOrbsDungeon.past_moves_ ∧
        (10 ≤ nineOrbsDungeon.player_.orb_count → d'.status_ = DungeonStatus.kPassed) ∧
        (nineOrbsDungeon.player_.orb_count < 10 → d'.status_ = nineOrbsDungeon.status_) ∧
        (nineOrbsDungeon.player_.orb_count = 9 →
          nineOrbsDungeon.status_ = DungeonStatus.kRunning →
          d'.status_ = DungeonStatus.kRunning) ∧
        (nineOrbsDungeon.player_.orb_count = 10 → d'.status_ = DungeonStatus.kPassed) :=
  ⟨by decide, Attack_on_sanctuary nineOrbsDungeon (by decide)⟩

/-- C6: when the tile under the player is not `kBigWhite`, `Attack` returns the
dungeon unchanged, whatever the orb count. -/
theorem Attack_off_sanctuary_unchanged (d : Dungeon) (b : Block)
    (h : d.PlayerOnBlock = .ok b) (hb : b ≠ Block.kBigWhite) :
    d.Attack = .ok d := by
  unfold Dungeon.Attack
  rw [h]
  simp only [bind, Except.bind, ne_eq, hb, not_false_eq_true, if_true, pure, Except.pure]

theorem Attack_off_sanctuary_unchanged_witness :
    (cornerDungeon.PlayerOnBlock = .ok Block.kBorderWhite ∧
        Block.kBorderWhite ≠ Block.kBigWhite) ∧
      cornerDungeon.Attack = .ok cornerDungeon :=
  ⟨⟨by decide, by decide⟩,
    Attack_off_sanctuary_unchanged cornerDungeon Block.kBorderWhite (by decide) (by decide)⟩

/-! ## Status transitions of `Move` and `Attack` -/

theorem NextPosition_ok {d : Dungeon} {direction : Char} (h : direction ∈ kDirections) :
    ∃ t, d.NextPosition direction = .ok t := by
  simp only [kDirections, List.mem_cons, List.mem_singleton, List.not_mem_nil, or_false] at h
  rcases h with rfl | rfl | rfl | rfl <;> exact ⟨_, rfl⟩

/-- The dungeon `deadOnSanctuary` is the constructed dungeon of size 3 with 759
health points after the moves `lethalMoves`. -/
theorem deadOnSanctuary_reached :
    (Dungeon.construct 3 10 759 lethalDraws 0 >>= fun made =>
      runCalls (lethalMoves.map Call.Move) made.1) = .ok deadOnSanctuary := by
  decide

/-- The dungeon `passedDungeon` is what an attempt leaves of the constructed
dungeon of size 3 with 760 health points. -/
theorem passedDungeon_reached :
    (Dungeon.construct 3 10 760 lethalDraws 0 >>= fun made =>
      DungeonRunner.Try { dungeon_ := made.1 } lethalDraws made.2 17) =
      .ok (true, { dungeon_ := passedDungeon }, 26) := by
  decide

/-- C7, as stated, fails: a `Move` takes the passed dungeon `passedDungeon` to
`kDead`, and an `Attack` takes the dead dungeon `deadOnSanctuary` to `kPassed`. -/
theorem terminal_status_not_absorbing :
    (passedDungeon.status_ = DungeonStatus.kPassed ∧
        (passedDungeon.Move 'd').map (fun d' => d'.status_) = .ok DungeonStatus.kDead) ∧
      (deadOnSanctuary.status_ = DungeonStatus.kDead ∧
        deadOnSanctuary.Attack.map (fun d' => d'.status_) = .ok DungeonStatus.kPassed) := by
  decide

/-- C7, amended: in a well-formed dungeon with the player inside the grid, a
`Move` in any of the four directions and an `Attack` both succeed; the `Move`
keeps the status `kDead`, the `Attack` keeps the status `kPassed`; a `Move`
that leaves the health non-negative keeps `kPassed`, an `Attack` off
`kBigWhite` or with fewer than ten orbs keeps `kDead`; and from `kRunning` the
`Move` gives `kRunning` or `kDead` and the `Attack` gives `kRunning` or
`kPassed`. -/
theorem Move_keeps_dead_Attack_keeps_passed (d : Dungeon) (direction : Char)
    (hwf : d.WellFormed) (hpl : d.IsInGrid d.player_.r d.player_.c = true)
    (hdir : direction ∈ kDirections) :
    ∃ dm da, d.Move direction = .ok dm ∧ d.Attack = .ok da ∧
      (d.status_ = DungeonStatus.kDead → dm.status_ = DungeonStatus.kDead) ∧
      (d.status_ = DungeonStatus.kPassed → da.status_ = DungeonStatus.kPassed) ∧
      (d.status_ = DungeonStatus.kPassed → 0 ≤ dm.player_.hp →
        dm.status_ = DungeonStatus.kPassed) ∧
      (d.status_ = DungeonStatus.kDead →
        d.PlayerOnBlock ≠ .ok Block.kBigWhite ∨ d.player_.orb_count < 10 →
        da.status_ = DungeonStatus.kDead) ∧
      (d.status_ = DungeonStatus.kRunning →
        dm.status_ = DungeonStatus.kRunning ∨ dm.status_ = DungeonStatus.kDead) ∧
      (d.status_ = DungeonStatus.kRunning →
        da.status_ = DungeonStatus.kRunning ∨ da.status_ = DungeonStatus.kPassed) := by
  -- the move
  have hmove : ∃ dm, d.Move direction = .ok dm ∧
      (dm.status_ = d.status_ ∨ (dm.status_ = DungeonStatus.kDead ∧ dm.player_.hp < 0)) := by
    obtain ⟨t, ht⟩ := NextPosition_ok (d := d) hdir
    cases hin : d.IsInGrid t.1 t.2 with
    | false => exact ⟨d, Move_rejected_eq ht hin, Or.inl rfl⟩
    | true =>
        obtain ⟨g', k, _, _, _, hm⟩ := Move_accepted_eq hwf ht hin
        refine ⟨_, hm, ?_⟩
        simp only
        split_ifs with hneg
        · exact Or.inr ⟨rfl, hneg⟩
        · exact Or.inl rfl
  -- the attack
  have hattack : ∃ da, d.Attack = .ok da ∧
      (da.status_ = d.status_ ∨
        (da.status_ = DungeonStatus.kPassed ∧ d.PlayerOnBlock = .ok Block.kBigWhite ∧
          10 ≤ d.player_.orb_count)) := by
    obtain ⟨h1, h2, h3, h4⟩ := (IsInGrid_iff hwf _ _).1 hpl
    obtain ⟨b, hb⟩ := Grid.read_ok_of_square hwf.2 (i := d.player_.r) (j := d.player_.c) h1
      (by have := hwf.1; omega) h3 (by have := hwf.1; omega)
    unfold Dungeon.Attack Dungeon.PlayerOnBlock
    rw [hb]
    simp only [bind, Except.bind, pure, Except.pure]
    split_ifs with hbig horb
    · exact ⟨d, rfl, Or.inl rfl⟩
    · exact ⟨d, rfl, Or.inl rfl⟩
    · refine ⟨_, rfl, Or.inr ⟨rfl, ?_, by omega⟩⟩
      rw [not_not.1 hbig]
  obtain ⟨dm, hm, hms⟩ := hmove
  obtain ⟨da, ha, has⟩ := hattack
  refine ⟨dm, da, hm, ha, ?_, ?_, ?_, ?_, ?_, ?_⟩
  · intro hs; rcases hms with h | h
    · rw [h, hs]
    · exact h.1
  · intro hs; rcases has with h | h
    · rw [h, hs]
    · exact h.1
  · intro hs hhp; rcases hms with h | h
    · rw [h, hs]
    · omega
  · intro hs hno; rcases has with h | h
    · rw [h, hs]
    · rcases hno with hno | hno
      · exact absurd h.2.1 hno
      · omega
  · intro hs; rcases hms with h | h
    · exact Or.inl (by rw [h, hs])
    · exact Or.inr h.1
  · intro hs; rcases has with h | h
    · exact Or.inl (by rw [h, hs])
    · exact Or.inr h.1

theorem Move_keeps_dead_Attack_keeps_passed_witness :
    (deadOnSanctuary.WellFormed ∧
        deadOnSanctuary.IsInGrid deadOnSanctuary.player_.r deadOnSanctuary.player_.c = true ∧
        'l' ∈ kDirections) ∧
      ∃ dm da, deadOnSanctuary.Move 'l' = .ok dm ∧ deadOnSanctuary.Attack = .ok da ∧
        (deadOnSanctuary.status_ = DungeonStatus.kDead → dm.status_ = DungeonStatus.kDead) ∧
        (deadOnSanctuary.status_ = DungeonStatus.kPassed →
          da.status_ = DungeonStatus.kPassed) ∧
        (deadOnSanctuary.status_ = DungeonStatus.kPassed → 0 ≤ dm.player_.hp →
          dm.status_ = DungeonStatus.kPassed) ∧
        (deadOnSanctuary.status_ = DungeonStatus.kDead →
          deadOnSanctuary.PlayerOnBlock ≠ .ok Block.kBigWhite ∨
            deadOnSanctuary.player_.orb_count < 10 →
          da.status_ = DungeonStatus.kDead) ∧
        (deadOnSanctuary.status_ = DungeonStatus.kRunning →
          dm.status_ = DungeonStatus.kRunning ∨ dm.status_ = DungeonStatus.kDead) ∧
        (deadOnSanctuary.status_ = DungeonStatus.kRunning →
          da.status_ = DungeonStatus.kRunning ∨ da.status_ = DungeonStatus.kPassed) :=
  ⟨⟨by decide, by decide, by decide⟩,
    Move_keeps_dead_Attack_keeps_passed deadOnSanctuary 'l' (by decide) (by decide) (by decide)⟩

/-! ## One attempt can pass after the player died -/

/-- C8 fails on the run with the draws `lethalDraws`: the seventeenth move of
the attempt takes the health to -1 and the status to `kDead` (the dungeon
`deadOnSanctuary`), the `Attack` that follows in the same iteration sets
`kPassed`, and `Try` returns `true` with health -1. -/
theorem Try_reports_success_after_death :
    (Dungeon.construct 3 10 759 lethalDraws 0 >>= fun made =>
        runCalls (lethalMoves.map Call.Move) made.1) = .ok deadOnSanctuary ∧
      deadOnSanctuary.status_ = DungeonStatus.kDead ∧ deadOnSanctuary.player_.hp = -1 ∧
      (Dungeon.construct 3 10 759 lethalDraws 0 >>= fun made =>
        DungeonRunner.Try { dungeon_ := made.1 } lethalDraws made.2 17) =
        .ok (true, { dungeon_ := { deadOnSanctuary with status_ := .kPassed } }, 26) := by
  decide

/-! ## The initial snapshot -/

theorem SameSnapshot.refl (d : Dungeon) : d.SameSnapshot d := ⟨rfl, rfl, rfl, rfl⟩

theorem SameSnapshot.trans {a b c : Dungeon} (h1 : a.SameSnapshot b) (h2 : b.SameSnapshot c) :
    a.SameSnapshot c := by
  obtain ⟨p1, p2, p3, p4⟩ := h1
  obtain ⟨q1, q2, q3, q4⟩ := h2
  exact ⟨q1.trans p1, q2.trans p2, q3.trans p3, q4.trans p4⟩

theorem UpdateGrid_snapshot {d d' : Dungeon} (h : d.UpdateGrid = .ok d') :
    d.SameSnapshot d' := by
  unfold Dungeon.UpdateGrid at h
  cases hl : forLoop d.kSize (fun i g =>
    forLoop d.kSize (fun j g => UpdateGridCell d.player_.r d.player_.c i j g) g) d.grid_ with
  | error e => rw [hl] at h; cases h
  | ok g =>
      rw [hl] at h
      simp only [bind, Except.bind, pure, Except.pure] at h
      cases h
      exact ⟨rfl, rfl, rfl, rfl⟩

theorem UpdatePlayer_snapshot {d d' : Dungeon} (h : d.UpdatePlayer = .ok d') :
    d.SameSnapshot d' := by
  unfold Dungeon.UpdatePlayer at h
  cases hb : d.PlayerOnBlock with
  | error e => rw [hb] at h; cases h
  | ok b =>
      rw [hb] at h
      simp only [bind, Except.bind, pure, Except.pure] at h
      split_ifs at h <;> cases h <;> exact ⟨rfl, rfl, rfl, rfl⟩

theorem Move_snapshot {d d' : Dungeon} {direction : Char} (h : d.Move direction = .ok d') :
    d.SameSnapshot d' := by
  unfold Dungeon.Move at h
  cases hn : d.NextPosition direction with
  | error e => rw [hn] at h; cases h
  | ok t =>
      rw [hn] at h
      simp only [bind, Except.bind, pure, Except.pure] at h
      cases hin : d.IsInGrid t.1 t.2 with
      | false =>
          rw [hin] at h
          simp only [Bool.not_false, if_true] at h
          cases h; exact SameSnapshot.refl d
      | true =>
          rw [hin] at h
          simp only [Bool.not_true, Bool.false_eq_true, if_false] at h
          cases hg : Dungeon.UpdateGrid
              { d with player_ := { d.player_ with r := t.1, c := t.2 } } with
          | error e => rw [hg] at h; cases h
          | ok d2 =>
              rw [hg] at h
              simp only at h
              cases hp : d2.UpdatePlayer with
              | error e => rw [hp] at h; cases h
              | ok d3 =>
                  rw [hp] at h
                  simp only at h
                  have s2 := UpdateGrid_snapshot hg
                  have s3 := UpdatePlayer_snapshot hp
                  have s23 := SameSnapshot.trans s2 s3
                  split_ifs at h <;> cases h <;> exact s23

theorem Attack_snapshot {d d' : Dungeon} (h : d.Attack = .ok d') : d.SameSnapshot d' := by
  unfold Dungeon.Attack at h
  cases hb : d.PlayerOnBlock with
  | error e => rw [hb] at h; cases h
  | ok b =>
      rw [hb] at h
      simp only [bind, Except.bind, pure, Except.pure] at h
      split_ifs at h <;> cases h <;> exact ⟨rfl, rfl, rfl, rfl⟩

theorem Set_snapshot {d d' : Dungeon} {grid : List (List Int)} (h : d.Set grid = .ok d') :
    d.SameSnapshot d' := by
  unfold Dungeon.Set at h
  simp only [bind, Except.bind, pure, Except.pure, throw, throwThe, MonadExceptOf.throw] at h
  repeat' split at h
  all_goals first | (cases h; exact ⟨rfl, rfl, rfl, rfl⟩) | cases h

theorem Reset_snapshot (d : Dungeon) : d.SameSnapshot d.Reset := ⟨rfl, rfl, rfl, rfl⟩

theorem Call_apply_snapshot {call : Call} {d d' : Dungeon} (h : call.apply d = .ok d') :
    d.SameSnapshot d' := by
  cases call with
  | Move direction => exact Move_snapshot h
  | Attack => exact Attack_snapshot h
  | Set grid => exact Set_snapshot h
  | Reset => cases h; exact Reset_snapshot _

theorem runCalls_snapshot {calls : List Call} {d d' : Dungeon}
    (h : runCalls calls d = .ok d') : d.SameSnapshot d' := by
  induction calls generalizing d with
  | nil => cases h; exact SameSnapshot.refl _
  | cons call rest ih =>
      unfold runCalls at h
      cases hc : call.apply d with
      | error e => rw [hc] at h; cases h
      | ok d1 =>
          rw [hc] at h
          exact SameSnapshot.trans (Call_apply_snapshot hc) (ih h)

theorem Reset_eq_of_snapshot {d d' : Dungeon} (h : d.SameSnapshot d') : d'.Reset = d.Reset := by
  obtain ⟨h1, h2, h3, h4⟩ := h
  unfold Dungeon.Reset
  rw [h1, h2, h3, h4]

theorem Grid.read_of_write {g g' : Grid} {i j : Int} {b : Block}
    (h : g.write i j b = .ok g') : g'.read i j = .ok b := by
  have hr : ∃ v, g.read i j = .ok v := by
    unfold Grid.write at h
    cases hrow : vecGet g i with
    | error e => rw [hrow] at h; cases h
    | ok row =>
        rw [hrow] at h
        simp only [bind, Except.bind] at h
        cases hset : vecSet row j b with
        | error e => rw [hset] at h; cases h
        | ok row' =>
            obtain ⟨⟨hj0, hj⟩, _⟩ := vecSet_eq_ok.1 hset
            obtain ⟨hi0, hgi⟩ := vecGet_eq_ok.1 hrow
            exact ⟨row[j.toNat], Grid.read_eq_ok.2
              ⟨hi0, hj0, row, hgi, List.getElem?_eq_getElem hj⟩⟩
  obtain ⟨v, hv⟩ := hr
  obtain ⟨g2, hw, _, hsame, _⟩ := Grid.write_spec b hv
  rw [hw] at h; cases h
  exact hsame

theorem construct_eq_ok {size desired_orb_count initial_hp : Int} {rng : Nat → Nat}
    {pos pos' : Nat} {d : Dungeon}
    (h : Dungeon.construct size desired_orb_count initial_hp rng pos = .ok (d, pos')) :
    ∃ g : Grid, g.read 1 1 = .ok Block.kBigWhite ∧
      d = { kSize := size
            kDesiredOrbCount := desired_orb_count
            grid_initial_ := g
            grid_ := g
            player_initial_ := NewPlayer initial_hp
            player_ := NewPlayer initial_hp } := by
  unfold Dungeon.construct at h
  simp only [bind, Except.bind, pure, Except.pure, throw, throwThe, MonadExceptOf.throw] at h
  split at h
  · cases h
  · split at h
    · cases h
    · rename_i filled hfilled
      split at h
      · cases h
      · rename_i g hw
        cases h
        exact ⟨g, Grid.read_of_write hw, rfl⟩

/-- C9: for a dungeon `d0` that the constructor returned and any sequence of
`Move`, `Attack`, `Set` and `Reset` calls that runs from it to a dungeon `d`,
the initial snapshot of `d` is that of `d0`, and `Reset` of `d` is exactly
`d0`: the constructed grid, the player at `(1, 1)` with the initial health and
no orbs, the status `kRunning`, an empty move history; the tile at `(1, 1)`
is `kBigWhite` after the `Reset`. -/
theorem Reset_restores_construction (size desired_orb_count initial_hp : Int)
    (rng : Nat → Nat) (pos pos' : Nat) (d0 d : Dungeon) (calls : List Call)
    (hc : Dungeon.construct size desired_orb_count initial_hp rng pos = .ok (d0, pos'))
    (hrun : runCalls calls d0 = .ok d) :
    d.grid_initial_ = d0.grid_initial_ ∧ d.player_initial_ = d0.player_initial_ ∧
      d.Reset = d0 ∧
      d.Reset.grid_ = d0.grid_ ∧
      d.Reset.player_ = { r := 1, c := 1, hp := initial_hp, orb_count := 0 } ∧
      d.Reset.status_ = DungeonStatus.kRunning ∧
      d.Reset.past_moves_ = [] ∧
      d.Reset.grid_.read 1 1 = .ok Block.kBigWhite := by
  obtain ⟨g, hg, rfl⟩ := construct_eq_ok hc
  have hs := runCalls_snapshot hrun
  have hreset := Reset_eq_of_snapshot hs
  obtain ⟨_, _, h3, h4⟩ := hs
  refine ⟨h3, h4, ?_, ?_, ?_, ?_, ?_, ?_⟩
  · rw [hreset]; rfl
  · rw [hreset]; rfl
  · rw [hreset]; rfl
  · rfl
  · rfl
  · rw [hreset]; exact hg

theorem Reset_restores_construction_witness :
    (Dungeon.construct 3 10 100 lethalDraws 0 = .ok (exampleDungeon, 9) ∧
        runCalls exampleCalls exampleDungeon = .ok afterExampleCalls) ∧
      (afterExampleCalls.grid_initial_ = exampleDungeon.grid_initial_ ∧
        afterExampleCalls.player_initial_ = exampleDungeon.player_initial_ ∧
        afterExampleCalls.Reset = exampleDungeon ∧
        afterExampleCalls.Reset.grid_ = exampleDungeon.grid_ ∧
        afterExampleCalls.Reset.player_ = { r := 1, c := 1, hp := 100, orb_count := 0 } ∧
        afterExampleCalls.Reset.status_ = DungeonStatus.kRunning ∧
        afterExampleCalls.Reset.past_moves_ = [] ∧
        afterExampleCalls.Reset.grid_.read 1 1 = .ok Block.kBigWhite) :=
  ⟨⟨by decide, by decide⟩,
    Reset_restores_construction 3 10 100 lethalDraws 0 9 exampleDungeon afterExampleCalls
      exampleCalls (by decide) (by decide)⟩

/-! ## The constructor -/

/-- C10 fails for the size 1: the constructor assigns `grid_initial_[1][1]`,
which lies outside a 1 x 1 grid, whatever the other arguments and the draws. -/
theorem construct_size_one_out_of_range (desired_orb_count initial_hp : Int)
    (rng : Nat → Nat) (pos : Nat) :
    Dungeon.construct 1 desired_orb_count initial_hp rng pos = .error Fault.outOfRange := by
  rfl

theorem Grid.write_eq_ok {g g' : Grid} {i j : Int} {b : Block}
    (h : g.write i j b = .ok g') :
    ∃ row, g[i.toNat]? = some row ∧ g' = g.set i.toNat (row.set j.toNat b) := by
  unfold Grid.write at h
  cases hrow : vecGet g i with
  | error e => rw [hrow] at h; cases h
  | ok row =>
      rw [hrow] at h
      simp only [bind, Except.bind] at h
      cases hset : vecSet row j b with
      | error e => rw [hset] at h; cases h
      | ok row' =>
          rw [hset] at h
          simp only at h
          obtain ⟨_, rfl⟩ := vecSet_eq_ok.1 hset
          obtain ⟨_, hg'⟩ := vecSet_eq_ok.1 h
          exact ⟨row, (vecGet_eq_ok.1 hrow).2, hg'⟩

theorem Grid.write_tiles {g g' : Grid} {i j : Int} {b : Block}
    (h : g.write i j b = .ok g') (hb : (0 : Int) ≤ b ∧ b < 4) (ht : g.Tiles) : g'.Tiles := by
  obtain ⟨row, hrow, rfl⟩ := Grid.write_eq_ok h
  intro r hr v hv
  rcases List.mem_or_eq_of_mem_set hr with hm | he
  · exact ht r hm v hv
  · subst he
    rcases List.mem_or_eq_of_mem_set hv with hm | he
    · exact ht row (List.getElem?_mem hrow) v hm
    · rw [he]; exact hb

theorem tile_of_draw (x : Nat) : (0 : Int) ≤ ((x % 4 : Nat) : Int) ∧ ((x % 4 : Nat) : Int) < 4 := by
  omega

theorem replicate_square (n : Nat) (b : Block) :
    Grid.Square (List.replicate n (List.replicate n b)) n := by
  refine ⟨List.length_replicate _ _, ?_⟩
  intro row hrow
  rw [List.eq_of_mem_replicate hrow, List.length_replicate]

theorem construct_loop_spec (n : Nat) (rng : Nat → Nat) (pos : Nat) (g0 : Grid)
    (h0 : g0.Square n) (t0 : g0.Tiles) :
    ∃ g, forLoop (n : Int) (fun i s =>
        forLoop (n : Int) (fun j (s : Grid × Nat) =>
          (s.1.write i j (((RandInt rng s.2).1 % 4 : Nat) : Int)) >>= fun g =>
            pure (g, (RandInt rng s.2).2)) s) (g0, pos) = .ok (g, pos + n * n) ∧
      g.Square n ∧ g.Tiles := by
  obtain ⟨s, hrun, hsq, ht, hp⟩ := forLoop_inv (n : Int)
    (fun i s =>
      forLoop (n : Int) (fun j (s : Grid × Nat) =>
        (s.1.write i j (((RandInt rng s.2).1 % 4 : Nat) : Int)) >>= fun g =>
          pure (g, (RandInt rng s.2).2)) s) (g0, pos)
    (fun i s => s.1.Square n ∧ s.1.Tiles ∧ s.2 = pos + i * n)
    ⟨h0, t0, by simp⟩
    (by
      intro i s hi ⟨hsq, ht, hp⟩
      obtain ⟨s', hrun, hsq', ht', hp'⟩ := forLoop_inv (n : Int)
        (fun j (s : Grid × Nat) =>
          (s.1.write i j (((RandInt rng s.2).1 % 4 : Nat) : Int)) >>= fun g =>
            pure (g, (RandInt rng s.2).2)) s
        (fun k s => s.1.Square n ∧ s.1.Tiles ∧ s.2 = pos + i * n + k)
        ⟨hsq, ht, by simpa using hp⟩
        (by
          intro k s hk ⟨hsq, ht, hp⟩
          obtain ⟨v, hv⟩ := Grid.read_ok_of_square hsq (i := (i : Int)) (j := (k : Int))
            (by omega) (by omega) (by omega) (by omega)
          obtain ⟨g', hw, hsq', _, _⟩ :=
            Grid.write_spec (((RandInt rng s.2).1 % 4 : Nat) : Int) hv
          refine ⟨(g', (RandInt rng s.2).2), ?_, hsq' n hsq, ?_, ?_⟩
          · simp only [bind, Except.bind, hw, pure, Except.pure]
          · exact Grid.write_tiles hw (tile_of_draw _) ht
          · simp only [RandInt, hp]; omega)
      refine ⟨s', hrun, hsq', ht', ?_⟩
      rw [hp']; simp only [Int.toNat_ofNat]; ring)
  simp only [Int.toNat_ofNat] at hp
  refine ⟨s.1, ?_, hsq, ht⟩
  rw [hrun, ← hp]

/-- For a size of at least 2 the constructor succeeds after `size * size`
draws and returns a well-formed dungeon of that size whose tile at `(1, 1)` is
`kBigWhite`, with the player at `(1, 1)`, the given health, no orbs, the status
`kRunning` and an empty move history. -/
theorem construct_ok (size desired_orb_count initial_hp : Int) (rng : Nat → Nat) (pos : Nat)
    (hsize : 2 ≤ size) :
    ∃ d, Dungeon.construct size desired_orb_count initial_hp rng pos =
        .ok (d, pos + size.toNat * size.toNat) ∧
      d.WellFormed ∧ d.grid_.Tiles ∧ d.kSize = size ∧
      d.kDesiredOrbCount = desired_orb_count ∧
      d.grid_.read 1 1 = .ok Block.kBigWhite ∧ d.grid_initial_ = d.grid_ ∧
      d.player_ = { r := 1, c := 1, hp := initial_hp, orb_count := 0 } ∧
      d.player_initial_ = d.player_ ∧
      d.IsInGrid d.player_.r d.player_.c = true ∧
      d.status_ = DungeonStatus.kRunning ∧ d.past_moves_ = [] := by
  have hn : ((size.toNat : Nat) : Int) = size := Int.toNat_of_nonneg (by omega)
  obtain ⟨g, hrun, hsq, ht⟩ := construct_loop_spec size.toNat rng pos
    (List.replicate size.toNat (List.replicate size.toNat Block.kSmallWhite))
    (replicate_square _ _)
    (by
      intro row hrow v hv
      rw [List.eq_of_mem_replicate hrow] at hv
      rw [List.eq_of_mem_replicate hv]
      decide)
  rw [hn] at hrun
  obtain ⟨v, hv⟩ := Grid.read_ok_of_square hsq (i := 1) (j := 1)
    (by omega) (by omega) (by omega) (by omega)
  obtain ⟨g', hw, hsq', hsame, _⟩ := Grid.write_spec Block.kBigWhite hv
  have hwf : Dungeon.WellFormed
      { kSize := size
        kDesiredOrbCount := desired_orb_count
        grid_initial_ := g'
        grid_ := g'
        player_initial_ := NewPlayer initial_hp
        player_ := NewPlayer initial_hp } := ⟨by show (0 : Int) ≤ size; omega, hsq' _ hsq⟩
  refine ⟨{ kSize := size
            kDesiredOrbCount := desired_orb_count
            grid_initial_ := g'
            grid_ := g'
            player_initial_ := NewPlayer initial_hp
            player_ := NewPlayer initial_hp }, ?_, hwf,
    Grid.write_tiles hw (by decide) ht, rfl, rfl, hsame, rfl, rfl, rfl, ?_, rfl, rfl⟩
  · unfold Dungeon.construct
    have hneg : ¬ size < 0 := by omega
    simp only [hneg, if_false, bind, Except.bind, pure, Except.pure] at hrun ⊢
    rw [hrun]
    simp only [hw]
  · rw [IsInGrid_iff hwf]
    simp only [NewPlayer]
    omega

/-! ## The invariant of play -/

theorem Valid_playerOnBlock {d : Dungeon} (hv : d.Valid) : ∃ b, d.PlayerOnBlock = .ok b := by
  obtain ⟨hwf, _, hpl, _⟩ := hv
  obtain ⟨h1, h2, h3, h4⟩ := (IsInGrid_iff hwf _ _).1 hpl
  exact Grid.read_ok_of_square hwf.2 (i := d.player_.r) (j := d.player_.c) h1
    (by have := hwf.1; omega) h3 (by have := hwf.1; omega)

theorem construct_valid {size desired_orb_count initial_hp : Int} {rng : Nat → Nat}
    {pos pos' : Nat} {d : Dungeon} (hsize : 2 ≤ size)
    (h : Dungeon.construct size desired_orb_count initial_hp rng pos = .ok (d, pos')) :
    d.Valid ∧ d.kSize = size ∧ d.player_.orb_count = 0 ∧ d.player_initial_.orb_count = 0 ∧
      d.player_initial_.hp = initial_hp := by
  obtain ⟨d1, h1, hwf, _, hk, _, _, hgi, hp, hpi, hin, _, _⟩ :=
    construct_ok size desired_orb_count initial_hp rng pos hsize
  rw [h1] at h
  cases h
  refine ⟨⟨hwf, by omega, hin, ?_, ?_, ?_⟩, hk, by rw [hp], by rw [hpi, hp], by rw [hpi, hp]⟩
  · rw [hgi]; exact hwf.2
  · rw [hpi, hp]; simp only; omega
  · rw [hpi, hp]; simp only; omega

theorem Move_valid {d : Dungeon} {direction : Char} (hv : d.Valid)
    (hdir : direction ∈ kDirections) :
    ∃ d', d.Move direction = .ok d' ∧ d'.Valid := by
  obtain ⟨hwf, h2, hpl, hgi, hr, hc⟩ := hv
  obtain ⟨t, ht⟩ := NextPosition_ok (d := d) hdir
  cases hin : d.IsInGrid t.1 t.2 with
  | false => exact ⟨d, Move_rejected_eq ht hin, hwf, h2, hpl, hgi, hr, hc⟩
  | true =>
      obtain ⟨g', k, _, hsq, _, hm⟩ := Move_accepted_eq hwf ht hin
      refine ⟨_, hm, ?_⟩
      have hwf' : Dungeon.WellFormed
          { d with
            status_ :=
              if (landed k { d.player_ with r := t.1, c := t.2 }).hp < 0 then .kDead
              else d.status_
            grid_ := g'
            player_ := landed k { d.player_ with r := t.1, c := t.2 }
            past_moves_ := d.past_moves_ ++ [direction] } := ⟨hwf.1, hsq⟩
      refine ⟨hwf', h2, ?_, hgi, hr, hc⟩
      rw [IsInGrid_iff hwf']
      have hpos : (landed k { d.player_ with r := t.1, c := t.2 }).r = t.1 ∧
          (landed k { d.player_ with r := t.1, c := t.2 }).c = t.2 := by
        simp only [landed]; split_ifs <;> exact ⟨rfl, rfl⟩
      simp only [hpos.1, hpos.2]
      exact (IsInGrid_iff hwf _ _).1 hin

theorem Attack_eq {d : Dungeon} {b : Block} (hb : d.PlayerOnBlock = .ok b) :
    d.Attack = .ok
      { d with
        status_ :=
          if b = Block.kBigWhite ∧ 10 ≤ d.player_.orb_count then .kPassed else d.status_ } := by
  unfold Dungeon.Attack
  rw [hb]
  simp only [bind, Except.bind, pure, Except.pure, ne_eq]
  by_cases h1 : b = Block.kBigWhite
  · by_cases h2 : d.player_.orb_count < 10
    · have : ¬ (10 ≤ d.player_.orb_count) := by omega
      simp [h1, h2, this]
    · have : 10 ≤ d.player_.orb_count := by omega
      simp [h1, h2, this]
  · simp [h1]

theorem Attack_valid {d : Dungeon} (hv : d.Valid) : ∃ d', d.Attack = .ok d' ∧ d'.Valid ∧
    d'.player_ = d.player_ ∧ d'.grid_ = d.grid_ ∧ d'.past_moves_ = d.past_moves_ := by
  obtain ⟨b, hb⟩ := Valid_playerOnBlock hv
  exact ⟨_, Attack_eq hb, hv, rfl, rfl, rfl⟩

theorem Reset_valid {d : Dungeon} (hv : d.Valid) : d.Reset.Valid := by
  obtain ⟨hwf, h2, _, hgi, hr, hc⟩ := hv
  have hwf' : d.Reset.WellFormed := ⟨hwf.1, hgi⟩
  refine ⟨hwf', h2, ?_, hgi, hr, hc⟩
  rw [IsInGrid_iff hwf']
  exact ⟨hr.1, hr.2, hc.1, hc.2⟩

theorem landed_facts (k : Block) (p : Player) :
    (landed k p).r = p.r ∧ (landed k p).c = p.c ∧ (landed k p).hp ≤ p.hp - 25 ∧
      p.orb_count - 5 ≤ (landed k p).orb_count ∧
      (0 ≤ p.orb_count → 0 ≤ (landed k p).orb_count) ∧
      ((landed k p).orb_count < p.orb_count → k = Block.kSmallWhite) := by
  unfold landed
  split_ifs with h1 h2 h3
  · refine ⟨rfl, rfl, ?_, ?_, ?_, fun _ => h1⟩
    · simp only; omega
    · simp only; omega
    · intro _; simp only; omega
  · refine ⟨rfl, rfl, ?_, ?_, ?_, ?_⟩
    · simp only; omega
    · simp only; omega
    · intro h; exact h
    · intro h; simp only at h; omega
  · refine ⟨rfl, rfl, ?_, ?_, ?_, ?_⟩
    · simp only; omega
    · simp only; omega
    · intro h; simp only; omega
    · intro h; simp only at h; omega
  · refine ⟨rfl, rfl, ?_, ?_, ?_, ?_⟩
    · simp only; omega
    · simp only; omega
    · intro h; exact h
    · intro h; simp only at h; omega

theorem Move_play {d : Dungeon} {direction : Char} (hv : d.Valid)
    (hdir : direction ∈ kDirections) :
    ∃ d' t, d.Move direction = .ok d' ∧ d.NextPosition direction = .ok t ∧ d'.Valid ∧
      d.SameSnapshot d' ∧
      ((d.IsInGrid t.1 t.2 = false ∧ d' = d) ∨
        (d.IsInGrid t.1 t.2 = true ∧ ∃ k, d.grid_.read t.1 t.2 = .ok k ∧
          d'.player_ = landed k { d.player_ with r := t.1, c := t.2 } ∧
          d'.past_moves_ = d.past_moves_ ++ [direction] ∧
          d'.status_ =
            (if (landed k { d.player_ with r := t.1, c := t.2 }).hp < 0 then .kDead
              else d.status_))) := by
  obtain ⟨d', hm, hv'⟩ := Move_valid hv hdir
  obtain ⟨t, ht⟩ := NextPosition_ok (d := d) hdir
  refine ⟨d', t, hm, ht, hv', Move_snapshot hm, ?_⟩
  cases hin : d.IsInGrid t.1 t.2 with
  | false =>
      left
      rw [Move_rejected_eq ht hin] at hm
      cases hm
      exact ⟨rfl, rfl⟩
  | true =>
      right
      obtain ⟨g', k, hk, _, _, hm'⟩ := Move_accepted_eq hv.1 ht hin
      rw [hm'] at hm
      cases hm
      exact ⟨rfl, k, hk, rfl, rfl, rfl⟩

theorem runCalls_plain_inv {calls : List Call} {d : Dungeon} (hv : d.Valid)
    (ho : 0 ≤ d.player_.orb_count) (hoi : 0 ≤ d.player_initial_.orb_count)
    (hplain : ∀ call ∈ calls, call.isPlain = true) :
    ∃ d', runCalls calls d = .ok d' ∧ d'.Valid ∧ d.SameSnapshot d' ∧
      0 ≤ d'.player_.orb_count := by
  induction calls generalizing d with
  | nil => exact ⟨d, rfl, hv, SameSnapshot.refl d, ho⟩
  | cons call rest ih =>
      have hrest : ∀ c ∈ rest, c.isPlain = true := fun c hc =>
        hplain c (List.mem_cons_of_mem _ hc)
      have hcall := hplain call (List.mem_cons_self _ _)
      have step : ∃ d1, call.apply d = .ok d1 ∧ d1.Valid ∧ d.SameSnapshot d1 ∧
          0 ≤ d1.player_.orb_count := by
        cases call with
        | Move direction =>
            have hdir : direction ∈ kDirections := by simpa [Call.isPlain] using hcall
            obtain ⟨d1, t, hm, _, hv1, hs, hcase⟩ := Move_play hv hdir
            refine ⟨d1, hm, hv1, hs, ?_⟩
            rcases hcase with ⟨_, rfl⟩ | ⟨_, k, _, hp, _, _⟩
            · exact ho
            · rw [hp]
              exact (landed_facts k _).2.2.2.2.1 ho
        | Attack =>
            obtain ⟨d1, ha, hv1, hp, _, _⟩ := Attack_valid hv
            exact ⟨d1, ha, hv1, Attack_snapshot ha, by rw [hp]; exact ho⟩
        | Set grid => simp [Call.isPlain] at hcall
        | Reset => exact ⟨d.Reset, rfl, Reset_valid hv, Reset_snapshot d, hoi⟩
      obtain ⟨d1, h1, hv1, hs1, ho1⟩ := step
      obtain ⟨d', hr, hv', hs', ho'⟩ := ih hv1 ho1 (by rw [hs1.2.2.2]; exact hoi) hrest
      refine ⟨d', ?_, hv', SameSnapshot.trans hs1 hs', ho'⟩
      unfold runCalls
      rw [h1]
      exact hr

theorem construct_size {size desired_orb_count initial_hp : Int} {rng : Nat → Nat}
    {pos pos' : Nat} {d : Dungeon}
    (h : Dungeon.construct size desired_orb_count initial_hp rng pos = .ok (d, pos')) :
    2 ≤ size := by
  by_contra hlt
  have hcases : size < 0 ∨ size = 0 ∨ size = 1 := by omega
  rcases hcases with hneg | rfl | rfl
  · unfold Dungeon.construct at h
    simp only [hneg, if_true, bind, Except.bind, throw, throwThe, MonadExceptOf.throw] at h
    cases h
  · have : Dungeon.construct 0 desired_orb_count initial_hp rng pos =
        .error Fault.outOfRange := rfl
    rw [this] at h; cases h
  · have : Dungeon.construct 1 desired_orb_count initial_hp rng pos =
        .error Fault.outOfRange := rfl
    rw [this] at h; cases h

/-! ## Claims about the reachable states -/

/-- C11: from a dungeon that the constructor returned, every sequence of calls
of `Move` (in the four directions), `Attack` and `Reset` runs to a dungeon with
`orb_count >= 0`; and a `Move` from that dungeon lowers `orb_count` by at most
5, and lowers it only when it is accepted and its target tile is
`kSmallWhite`. -/
theorem orb_count_nonneg_reachable (size desired_orb_count initial_hp : Int)
    (rng : Nat → Nat) (pos pos' : Nat) (d0 : Dungeon) (calls : List Call) (direction : Char)
    (hc : Dungeon.construct size desired_orb_count initial_hp rng pos = .ok (d0, pos'))
    (hplain : ∀ call ∈ calls, call.isPlain = true) (hdir : direction ∈ kDirections) :
    ∃ d, runCalls calls d0 = .ok d ∧ 0 ≤ d.player_.orb_count ∧
      ∃ d' t, d.Move direction = .ok d' ∧ d.NextPosition direction = .ok t ∧
        d.player_.orb_count - 5 ≤ d'.player_.orb_count ∧
        (d'.player_.orb_count < d.player_.orb_count →
          d.IsInGrid t.1 t.2 = true ∧ d.grid_.read t.1 t.2 = .ok Block.kSmallWhite) := by
  obtain ⟨hv0, _, ho0, hoi0, _⟩ := construct_valid (construct_size hc) hc
  obtain ⟨d, hrun, hv, _, ho⟩ := runCalls_plain_inv hv0 (by omega) (by omega) hplain
  obtain ⟨d', t, hm, ht, _, _, hcase⟩ := Move_play hv hdir
  refine ⟨d, hrun, ho, d', t, hm, ht, ?_⟩
  rcases hcase with ⟨_, rfl⟩ | ⟨hin, k, hk, hp, _, _⟩
  · exact ⟨by omega, fun h => absurd h (lt_irrefl _)⟩
  · have hf := landed_facts k { d.player_ with r := t.1, c := t.2 }
    rw [hp]
    refine ⟨hf.2.2.2.1, fun h => ⟨hin, ?_⟩⟩
    rw [hk, hf.2.2.2.2.2 h]

theorem orb_count_nonneg_reachable_witness :
    (Dungeon.construct 3 10 100 lethalDraws 0 = .ok (exampleDungeon, 9) ∧
        (∀ call ∈ plainCalls, call.isPlain = true) ∧ 'l' ∈ kDirections) ∧
      ∃ d, runCalls plainCalls exampleDungeon = .ok d ∧ 0 ≤ d.player_.orb_count ∧
        ∃ d' t, d.Move 'l' = .ok d' ∧ d.NextPosition 'l' = .ok t ∧
          d.player_.orb_count - 5 ≤ d'.player_.orb_count ∧
          (d'.player_.orb_count < d.player_.orb_count →
            d.IsInGrid t.1 t.2 = true ∧ d.grid_.read t.1 t.2 = .ok Block.kSmallWhite) :=
  ⟨⟨by decide, by decide, by decide⟩,
    orb_count_nonneg_reachable 3 10 100 lethalDraws 0 9 exampleDungeon plainCalls 'l'
      (by decide) (by decide) (by decide)⟩

/-- C19: for a size `N >= 2`, every sequence of calls of `Move` (in the four
directions), `Attack` and `Reset` runs from the constructed dungeon to a
dungeon whose player position satisfies `0 <= r < N` and `0 <= c < N` and whose
grid is `N` by `N`, so that `PlayerOnBlock` reads a cell of the grid. -/
theorem player_stays_in_grid (size desired_orb_count initial_hp : Int)
    (rng : Nat → Nat) (pos pos' : Nat) (d0 : Dungeon) (calls : List Call)
    (hsize : 2 ≤ size)
    (hc : Dungeon.construct size desired_orb_count initial_hp rng pos = .ok (d0, pos'))
    (hplain : ∀ call ∈ calls, call.isPlain = true) :
    ∃ d, runCalls calls d0 = .ok d ∧
      (0 ≤ d.player_.r ∧ d.player_.r < size) ∧ (0 ≤ d.player_.c ∧ d.player_.c < size) ∧
      d.kSize = size ∧ d.grid_.Square size.toNat ∧
      ∃ b, d.PlayerOnBlock = .ok b := by
  obtain ⟨hv0, hk0, ho0, hoi0, _⟩ := construct_valid hsize hc
  obtain ⟨d, hrun, hv, hs, _⟩ := runCalls_plain_inv hv0 (by omega) (by omega) hplain
  have hk : d.kSize = size := by rw [hs.1, hk0]
  obtain ⟨h1, h2, h3, h4⟩ := (IsInGrid_iff hv.1 _ _).1 hv.2.2.1
  refine ⟨d, hrun, ⟨h1, by omega⟩, ⟨h3, by omega⟩, hk, ?_, Valid_playerOnBlock hv⟩
  rw [← hk]; exact hv.1.2

theorem player_stays_in_grid_witness :
    ((2 : Int) ≤ 3 ∧ Dungeon.construct 3 10 100 lethalDraws 0 = .ok (exampleDungeon, 9) ∧
        (∀ call ∈ plainCalls, call.isPlain = true)) ∧
      ∃ d, runCalls plainCalls exampleDungeon = .ok d ∧
        (0 ≤ d.player_.r ∧ d.player_.r < 3) ∧ (0 ≤ d.player_.c ∧ d.player_.c < 3) ∧
        d.kSize = 3 ∧ d.grid_.Square (3 : Int).toNat ∧
        ∃ b, d.PlayerOnBlock = .ok b :=
  ⟨⟨by decide, by decide, by decide⟩,
    player_stays_in_grid 3 10 100 lethalDraws 0 9 exampleDungeon plainCalls
      (by decide) (by decide) (by decide)⟩

/-! ## The cycle of the tiles -/

/-- C12: on the four enumerators of `Block`, `NextBlock` is a cycle of length
four in the order `kSmallWhite`, `kBorderWhite`, `kBlack`, `kBigWhite`: four
applications give the tile back, and one, two or three give another tile. -/
theorem NextBlock_four_cycle (b : Int) (hb : 0 ≤ b ∧ b < 4) :
    NextBlock (NextBlock (NextBlock (NextBlock b))) = b ∧
      NextBlock b ≠ b ∧ NextBlock (NextBlock b) ≠ b ∧
      NextBlock (NextBlock (NextBlock b)) ≠ b ∧
      NextBlock Block.kSmallWhite = Block.kBorderWhite ∧
      NextBlock Block.kBorderWhite = Block.kBlack ∧
      NextBlock Block.kBlack = Block.kBigWhite ∧
      NextBlock Block.kBigWhite = Block.kSmallWhite := by
  obtain ⟨h0, h4⟩ := hb
  have hcases : b = 0 ∨ b = 1 ∨ b = 2 ∨ b = 3 := by omega
  rcases hcases with rfl | rfl | rfl | rfl <;> decide

theorem NextBlock_four_cycle_witness :
    ((0 : Int) ≤ 2 ∧ (2 : Int) < 4) ∧
      (NextBlock (NextBlock (NextBlock (NextBlock Block.kBlack))) = Block.kBlack ∧
        NextBlock Block.kBlack ≠ Block.kBlack ∧
        NextBlock (NextBlock Block.kBlack) ≠ Block.kBlack ∧
        NextBlock (NextBlock (NextBlock Block.kBlack)) ≠ Block.kBlack ∧
        NextBlock Block.kSmallWhite = Block.kBorderWhite ∧
        NextBlock Block.kBorderWhite = Block.kBlack ∧
        NextBlock Block.kBlack = Block.kBigWhite ∧
        NextBlock Block.kBigWhite = Block.kSmallWhite) :=
  ⟨by decide, NextBlock_four_cycle 2 (by decide)⟩

/-! ## The choice of a direction in `Try` -/

theorem possibleDirections_eq (d : Dungeon) :
    possibleDirections d = .ok (kDirections.filter (legal d)) := by
  have hu : d.NextPosition 'u' = .ok (d.player_.r - 1, d.player_.c) := rfl
  have hd : d.NextPosition 'd' = .ok (d.player_.r + 1, d.player_.c) := rfl
  have hl : d.NextPosition 'l' = .ok (d.player_.r, d.player_.c - 1) := rfl
  have hr : d.NextPosition 'r' = .ok (d.player_.r, d.player_.c + 1) := rfl
  unfold possibleDirections kDirections
  simp only [List.foldlM, bind, Except.bind, pure, Except.pure, hu, hd, hl, hr, List.filter,
    legal]
  cases d.IsInGrid (d.player_.r - 1) d.player_.c <;>
    cases d.IsInGrid (d.player_.r + 1) d.player_.c <;>
    cases d.IsInGrid d.player_.r (d.player_.c - 1) <;>
    cases d.IsInGrid d.player_.r (d.player_.c + 1) <;> rfl

theorem legal_read {d : Dungeon} (hwf : d.WellFormed) {c : Char} (hc : legal d c = true) :
    ∃ t b, d.NextPosition c = .ok t ∧ d.IsInGrid t.1 t.2 = true ∧
      d.grid_.read t.1 t.2 = .ok b ∧ hazard d c = decide (b = Block.kBorderWhite) := by
  unfold legal at hc
  cases ht : d.NextPosition c with
  | error e => rw [ht] at hc; cases hc
  | ok t =>
      rw [ht] at hc
      simp only at hc
      obtain ⟨h1, h2, h3, h4⟩ := (IsInGrid_iff hwf t.1 t.2).1 hc
      obtain ⟨b, hb⟩ := Grid.read_ok_of_square hwf.2 (i := t.1) (j := t.2) h1
        (by have := hwf.1; omega) h3 (by have := hwf.1; omega)
      refine ⟨t, b, rfl, hc, hb, ?_⟩
      unfold hazard
      rw [ht]
      simp only [hb]

theorem idealDirections_fold {d : Dungeon} (hwf : d.WellFormed) (l acc : List Char)
    (hl : ∀ c ∈ l, legal d c = true) :
    l.foldlM (fun acc c =>
      d.NextPosition c >>= fun next_position =>
        d.grid_.read next_position.1 next_position.2 >>= fun b =>
          if b ≠ Block.kBorderWhite then (pure (acc ++ [c]) : Except Fault (List Char))
          else pure acc) acc = .ok (acc ++ l.filter (fun c => !hazard d c)) := by
  induction l generalizing acc with
  | nil => simp [List.foldlM, pure, Except.pure]
  | cons c rest ih =>
      obtain ⟨t, b, ht, _, hb, hh⟩ := legal_read hwf (hl c (List.mem_cons_self _ _))
      have hrest : ∀ x ∈ rest, legal d x = true := fun x hx =>
        hl x (List.mem_cons_of_mem _ hx)
      simp only [List.foldlM, bind, Except.bind, ht, hb, pure, Except.pure]
      by_cases hbw : b = Block.kBorderWhite
      · have hz : hazard d c = true := by rw [hh]; simpa using hbw
        simp only [hbw, ne_eq, not_true_eq_false, if_false]
        have := ih acc hrest
        simp only [bind, Except.bind, pure, Except.pure] at this
        rw [this]
        simp [List.filter, hz]
      · have hz : hazard d c = false := by rw [hh]; simpa using hbw
        simp only [hbw, ne_eq, not_false_eq_true, if_true]
        have := ih (acc ++ [c]) hrest
        simp only [bind, Except.bind, pure, Except.pure] at this
        rw [this]
        simp [List.filter, hz]

theorem idealDirections_eq {d : Dungeon} (hwf : d.WellFormed) :
    idealDirections d (kDirections.filter (legal d)) =
      .ok ((kDirections.filter (legal d)).filter (fun c => !hazard d c)) := by
  have := idealDirections_fold hwf (kDirections.filter (legal d)) []
    (fun c hc => (List.mem_filter.1 hc).2)
  simpa [idealDirections] using this

theorem vecGet_natCast {α : Type} {l : List α} {n : Nat} (hn : n < l.length) :
    vecGet l ((n : Nat) : Int) = .ok (l[n]) := by
  rw [vecGet_eq_ok]
  exact ⟨by omega, by simp [List.getElem?_eq_getElem hn]⟩

theorem legal_nonempty {d : Dungeon} (hwf : d.WellFormed) (h2 : 2 ≤ d.kSize)
    (hpl : d.IsInGrid d.player_.r d.player_.c = true) : kDirections.filter (legal d) ≠ [] := by
  obtain ⟨h1, h3, h4, h5⟩ := (IsInGrid_iff hwf _ _).1 hpl
  by_cases hr : 1 ≤ d.player_.r
  · have hu : legal d 'u' = true := by
      show d.IsInGrid (d.player_.r - 1) d.player_.c = true
      rw [IsInGrid_iff hwf]; omega
    intro hnil
    have : 'u' ∈ kDirections.filter (legal d) :=
      List.mem_filter.2 ⟨by decide, hu⟩
    rw [hnil] at this
    cases this
  · have hd : legal d 'd' = true := by
      show d.IsInGrid (d.player_.r + 1) d.player_.c = true
      rw [IsInGrid_iff hwf]; omega
    intro hnil
    have : 'd' ∈ kDirections.filter (legal d) :=
      List.mem_filter.2 ⟨by decide, hd⟩
    rw [hnil] at this
    cases this

theorem candidates_facts {d : Dungeon} (hwf : d.WellFormed) (h2 : 2 ≤ d.kSize)
    (hpl : d.IsInGrid d.player_.r d.player_.c = true) :
    candidates d ≠ [] ∧
      (∀ c ∈ candidates d, c ∈ kDirections ∧ legal d c = true) ∧
      (∀ c ∈ candidates d, hazard d c = true →
        ∀ x ∈ kDirections, legal d x = true → hazard d x = true) := by
  unfold candidates
  split_ifs with hemp
  · refine ⟨legal_nonempty hwf h2 hpl, fun c hc => List.mem_filter.1 hc, ?_⟩
    intro c _ _ x hx hlx
    by_contra hnz
    have hmem : x ∈ (kDirections.filter (legal d)).filter (fun c => !hazard d c) :=
      List.mem_filter.2 ⟨List.mem_filter.2 ⟨hx, hlx⟩, by simpa using hnz⟩
    rw [List.isEmpty_iff.1 hemp] at hmem
    cases hmem
  · refine ⟨fun h => hemp (by rw [h]; rfl), ?_, ?_⟩
    · intro c hc
      exact List.mem_filter.1 (List.mem_filter.1 hc).1
    · intro c hc hz
      have := (List.mem_filter.1 hc).2
      simp [hz] at this

theorem chooseDirection_eq {d : Dungeon} (hwf : d.WellFormed) (h2 : 2 ≤ d.kSize)
    (hpl : d.IsInGrid d.player_.r d.player_.c = true) (rng : Nat → Nat) (pos : Nat) :
    ∃ (h : (RandInt rng pos).1 % (candidates d).length < (candidates d).length),
      chooseDirection d rng pos =
        .ok ((candidates d)[(RandInt rng pos).1 % (candidates d).length], pos + 1) := by
  have hne := (candidates_facts hwf h2 hpl).1
  have hpos : 0 < (candidates d).length := List.length_pos.2 hne
  have hlt := Nat.mod_lt (RandInt rng pos).1 hpos
  refine ⟨hlt, ?_⟩
  unfold chooseDirection
  rw [possibleDirections_eq]
  simp only [bind, Except.bind]
  rw [idealDirections_eq hwf]
  simp only []
  have hcand : (if (!((kDirections.filter (legal d)).filter (fun c => !hazard d c)).isEmpty) = true
      then (kDirections.filter (legal d)).filter (fun c => !hazard d c)
      else kDirections.filter (legal d)) = candidates d := by
    unfold candidates
    cases ((kDirections.filter (legal d)).filter (fun c => !hazard d c)).isEmpty <;> simp
  rw [hcand]
  have hlen : ¬ (candidates d).length = 0 := by omega
  simp only [hlen, if_false, vecGet_natCast hlt, pure, Except.pure]
  rfl

theorem TryStep_spec {d : Dungeon} (hwf : d.WellFormed) (h2 : 2 ≤ d.kSize)
    (hpl : d.IsInGrid d.player_.r d.player_.c = true) (rng : Nat → Nat) (pos : Nat) :
    ∃ c t k d1 d2, chooseDirection d rng pos = .ok (c, pos + 1) ∧ c ∈ candidates d ∧
      d.NextPosition c = .ok t ∧ d.IsInGrid t.1 t.2 = true ∧ d.grid_.read t.1 t.2 = .ok k ∧
      d.Move c = .ok d1 ∧ d1.PlayerOnBlock = .ok k ∧
      d1.player_ = landed k { d.player_ with r := t.1, c := t.2 } ∧
      d1.past_moves_ = d.past_moves_ ++ [c] ∧
      d1.status_ = (if d1.player_.hp < 0 then .kDead else d.status_) ∧
      TryStep d rng pos = .ok (d2, pos + 1) ∧
      d2 = { d1 with
        status_ :=
          if k = Block.kBigWhite ∧ 10 ≤ d1.player_.orb_count then .kPassed else d1.status_ } ∧
      d1.WellFormed ∧ d1.IsInGrid d1.player_.r d1.player_.c = true ∧ d.SameSnapshot d1 := by
  obtain ⟨hlt, hch⟩ := chooseDirection_eq hwf h2 hpl rng pos
  have hmem : (candidates d)[(RandInt rng pos).1 % (candidates d).length] ∈ candidates d :=
    List.getElem_mem hlt
  obtain ⟨hdir, hleg⟩ := (candidates_facts hwf h2 hpl).2.1 _ hmem
  obtain ⟨t, k, ht, hin, hk, _⟩ := legal_read hwf hleg
  obtain ⟨g', k', hk', hsq, hcells, hm⟩ := Move_accepted_eq hwf ht hin
  rw [hk] at hk'; cases hk'
  have hf := landed_facts k { d.player_ with r := t.1, c := t.2 }
  have hpb : Dungeon.PlayerOnBlock
      { d with
        status_ :=
          if (landed k { d.player_ with r := t.1, c := t.2 }).hp < 0 then .kDead
          else d.status_
        grid_ := g'
        player_ := landed k { d.player_ with r := t.1, c := t.2 }
        past_moves_ := d.past_moves_ ++
          [(candidates d)[(RandInt rng pos).1 % (candidates d).length]] } = .ok k := by
    show g'.read (landed k { d.player_ with r := t.1, c := t.2 }).r
      (landed k { d.player_ with r := t.1, c := t.2 }).c = .ok k
    rw [hf.1, hf.2.1]
    have := hcells t.1 t.2 k hk
    simpa [advanced] using this
  have hwf1 : Dungeon.WellFormed
      { d with
        status_ :=
          if (landed k { d.player_ with r := t.1, c := t.2 }).hp < 0 then .kDead
          else d.status_
        grid_ := g'
        player_ := landed k { d.player_ with r := t.1, c := t.2 }
        past_moves_ := d.past_moves_ ++
          [(candidates d)[(RandInt rng pos).1 % (candidates d).length]] } := ⟨hwf.1, hsq⟩
  refine ⟨_, t, k, _, _, hch, hmem, ht, hin, hk, hm, hpb, rfl, rfl, rfl, ?_, rfl, hwf1, ?_,
    Move_snapshot hm⟩
  · unfold TryStep
    rw [hch]
    simp only [bind, Except.bind]
    rw [hm]
    simp only []
    rw [hpb]
    simp only []
    rw [Attack_eq hpb]
    by_cases hbig : k = Block.kBigWhite
    · simp only [hbig, if_true, true_and, pure, Except.pure]
    · simp only [hbig, if_false, false_and, pure, Except.pure]
  · rw [IsInGrid_iff hwf1]
    simp only [hf.1, hf.2.1]
    exact (IsInGrid_iff hwf _ _).1 hin

/-- C16: in a well-formed dungeon of size at least 2 with the player inside the
grid, the first loop of `Try` finds a non-empty list of directions (exactly the
directions of `u d l r` whose next position is inside the grid), the list that
the draw indexes is non-empty, the index `RandInt() % size` is smaller than its
length, and the choice succeeds with an element of that list. -/
theorem legal_moves_nonempty (d : Dungeon) (rng : Nat → Nat) (pos : Nat)
    (hwf : d.WellFormed) (h2 : 2 ≤ d.kSize)
    (hpl : d.IsInGrid d.player_.r d.player_.c = true) :
    ∃ possible ideal c, possibleDirections d = .ok possible ∧ possible ≠ [] ∧
      (∀ x, x ∈ possible ↔
        x ∈ kDirections ∧ ∃ t, d.NextPosition x = .ok t ∧ d.IsInGrid t.1 t.2 = true) ∧
      idealDirections d possible = .ok ideal ∧
      (if ideal.isEmpty then possible else ideal).length ≠ 0 ∧
      (RandInt rng pos).1 % (if ideal.isEmpty then possible else ideal).length <
        (if ideal.isEmpty then possible else ideal).length ∧
      chooseDirection d rng pos = .ok (c, pos + 1) ∧
      (if ideal.isEmpty then possible else ideal)[
        (RandInt rng pos).1 % (if ideal.isEmpty then possible else ideal).length]? = some c := by
  obtain ⟨hlt, hch⟩ := chooseDirection_eq hwf h2 hpl rng pos
  have hcand : (if ((kDirections.filter (legal d)).filter (fun c => !hazard d c)).isEmpty
      then kDirections.filter (legal d)
      else (kDirections.filter (legal d)).filter (fun c => !hazard d c)) = candidates d := rfl
  refine ⟨kDirections.filter (legal d),
    (kDirections.filter (legal d)).filter (fun c => !hazard d c), _,
    possibleDirections_eq d, legal_nonempty hwf h2 hpl, ?_, idealDirections_eq hwf, ?_, ?_,
    hch, ?_⟩
  · intro x
    rw [List.mem_filter]
    refine and_congr_right (fun _ => ?_)
    unfold legal
    cases ht : d.NextPosition x with
    | error e => simp
    | ok t => simp
  · rw [hcand]; omega
  · rw [hcand]; exact hlt
  · simp only [hcand]
    exact List.getElem?_eq_getElem hlt

theorem legal_moves_nonempty_witness :
    (cornerDungeon.WellFormed ∧ 2 ≤ cornerDungeon.kSize ∧
        cornerDungeon.IsInGrid cornerDungeon.player_.r cornerDungeon.player_.c = true) ∧
      ∃ possible ideal c, possibleDirections cornerDungeon = .ok possible ∧ possible ≠ [] ∧
        (∀ x, x ∈ possible ↔
          x ∈ kDirections ∧
            ∃ t, cornerDungeon.NextPosition x = .ok t ∧
              cornerDungeon.IsInGrid t.1 t.2 = true) ∧
        idealDirections cornerDungeon possible = .ok ideal ∧
        (if ideal.isEmpty then possible else ideal).length ≠ 0 ∧
        (RandInt lethalDraws 0).1 % (if ideal.isEmpty then possible else ideal).length <
          (if ideal.isEmpty then possible else ideal).length ∧
        chooseDirection cornerDungeon lethalDraws 0 = .ok (c, 0 + 1) ∧
        (if ideal.isEmpty then possible else ideal)[
          (RandInt lethalDraws 0).1 %
            (if ideal.isEmpty then possible else ideal).length]? = some c :=
  ⟨⟨by decide, by decide, by decide⟩,
    legal_moves_nonempty cornerDungeon lethalDraws 0 (by decide) (by decide) (by decide)⟩

/-- C17: in a well-formed dungeon of size at least 2 with the player inside the
grid, whatever the draw, the iteration of `Try` chooses one of `u d l r` whose
next position `t` is inside the grid, the `Move` it makes is accepted (the
player lands on `t` and the direction joins the move history); the tile at `t`
is `kBorderWhite` only if the next tile of every legal direction is, and as
soon as one legal direction leads to another tile, so does the chosen one. -/
theorem chosen_direction_legal_and_preferred (d : Dungeon) (rng : Nat → Nat) (pos : Nat)
    (hwf : d.WellFormed) (h2 : 2 ≤ d.kSize)
    (hpl : d.IsInGrid d.player_.r d.player_.c = true) :
    ∃ c t k d1 d2, chooseDirection d rng pos = .ok (c, pos + 1) ∧ c ∈ kDirections ∧
      d.NextPosition c = .ok t ∧ d.IsInGrid t.1 t.2 = true ∧ d.grid_.read t.1 t.2 = .ok k ∧
      d.Move c = .ok d1 ∧ d1.player_.r = t.1 ∧ d1.player_.c = t.2 ∧
      d1.past_moves_ = d.past_moves_ ++ [c] ∧
      TryStep d rng pos = .ok (d2, pos + 1) ∧ d2.past_moves_ = d.past_moves_ ++ [c] ∧
      (k = Block.kBorderWhite →
        ∀ x tx, x ∈ kDirections → d.NextPosition x = .ok tx → d.IsInGrid tx.1 tx.2 = true →
          d.grid_.read tx.1 tx.2 = .ok Block.kBorderWhite) ∧
      ((∃ x tx bx, x ∈ kDirections ∧ d.NextPosition x = .ok tx ∧
          d.IsInGrid tx.1 tx.2 = true ∧ d.grid_.read tx.1 tx.2 = .ok bx ∧
          bx ≠ Block.kBorderWhite) →
        k ≠ Block.kBorderWhite) := by
  obtain ⟨c, t, k, d1, d2, hch, hmem, ht, hin, hk, hm, _, hp, hh, _, hts, hd2, _⟩ :=
    TryStep_spec hwf h2 hpl rng pos
  obtain ⟨_, hmemf, hhaz⟩ := candidates_facts hwf h2 hpl
  have hf := landed_facts k { d.player_ with r := t.1, c := t.2 }
  have hall : k = Block.kBorderWhite →
      ∀ x tx, x ∈ kDirections → d.NextPosition x = .ok tx → d.IsInGrid tx.1 tx.2 = true →
        d.grid_.read tx.1 tx.2 = .ok Block.kBorderWhite := by
    intro hkb x tx hx htx hinx
    have hzc : hazard d c = true := by
      unfold hazard; rw [ht]; simp only [hk]; simpa using hkb
    have hlx : legal d x = true := by
      unfold legal; rw [htx]; exact hinx
    have hzx := hhaz c hmem hzc x hx hlx
    obtain ⟨tx', bx, htx', _, hbx, hhx⟩ := legal_read hwf hlx
    rw [htx] at htx'; cases htx'
    rw [hhx] at hzx
    rw [hbx, of_decide_eq_true hzx]
  refine ⟨c, t, k, d1, d2, hch, (hmemf c hmem).1, ht, hin, hk, hm, ?_, ?_, hh, hts, ?_, hall, ?_⟩
  · rw [hp, hf.1]
  · rw [hp, hf.2.1]
  · rw [hd2]; exact hh
  · rintro ⟨x, tx, bx, hx, htx, hinx, hbx, hne⟩ hkb
    have := hall hkb x tx hx htx hinx
    rw [hbx] at this
    cases this
    exact hne rfl

theorem chosen_direction_legal_and_preferred_witness :
    (cornerDungeon.WellFormed ∧ 2 ≤ cornerDungeon.kSize ∧
        cornerDungeon.IsInGrid cornerDungeon.player_.r cornerDungeon.player_.c = true) ∧
      ∃ c t k d1 d2, chooseDirection cornerDungeon lethalDraws 3 = .ok (c, 3 + 1) ∧
        c ∈ kDirections ∧
        cornerDungeon.NextPosition c = .ok t ∧ cornerDungeon.IsInGrid t.1 t.2 = true ∧
        cornerDungeon.grid_.read t.1 t.2 = .ok k ∧
        cornerDungeon.Move c = .ok d1 ∧ d1.player_.r = t.1 ∧ d1.player_.c = t.2 ∧
        d1.past_moves_ = cornerDungeon.past_moves_ ++ [c] ∧
        TryStep cornerDungeon lethalDraws 3 = .ok (d2, 3 + 1) ∧
        d2.past_moves_ = cornerDungeon.past_moves_ ++ [c] ∧
        (k = Block.kBorderWhite →
          ∀ x tx, x ∈ kDirections → cornerDungeon.NextPosition x = .ok tx →
            cornerDungeon.IsInGrid tx.1 tx.2 = true →
            cornerDungeon.grid_.read tx.1 tx.2 = .ok Block.kBorderWhite) ∧
        ((∃ x tx bx, x ∈ kDirections ∧ cornerDungeon.NextPosition x = .ok tx ∧
            cornerDungeon.IsInGrid tx.1 tx.2 = true ∧
            cornerDungeon.grid_.read tx.1 tx.2 = .ok bx ∧ bx ≠ Block.kBorderWhite) →
          k ≠ Block.kBorderWhite) :=
  ⟨⟨by decide, by decide, by decide⟩,
    chosen_direction_legal_and_preferred cornerDungeon lethalDraws 3
      (by decide) (by decide) (by decide)⟩

/-! ## Termination of an attempt -/

theorem Valid_of_snapshot {d d' : Dungeon} (hv : d.Valid) (hs : d.SameSnapshot d')
    (hwf : d'.WellFormed) (hin : d'.IsInGrid d'.player_.r d'.player_.c = true) : d'.Valid := by
  obtain ⟨_, h2, _, hgi, hr, hc⟩ := hv
  obtain ⟨s1, _, s3, s4⟩ := hs
  refine ⟨hwf, by rw [s1]; exact h2, hin, by rw [s1, s3]; exact hgi, ?_, ?_⟩
  · rw [s1, s4]; exact hr
  · rw [s1, s4]; exact hc

theorem TryStep_valid {d : Dungeon} (hv : d.Valid) (rng : Nat → Nat) (pos : Nat) :
    ∃ c d2, TryStep d rng pos = .ok (d2, pos + 1) ∧ d2.Valid ∧ d.SameSnapshot d2 ∧
      c ∈ kDirections ∧ d2.past_moves_ = d.past_moves_ ++ [c] ∧
      d2.player_.hp ≤ d.player_.hp - 25 ∧
      (d.status_ = DungeonStatus.kRunning → d2.status_ = DungeonStatus.kRunning →
        0 ≤ d2.player_.hp) := by
  obtain ⟨c, t, k, d1, d2, _, hmem, _, _, _, _, _, hp, hh, hst, hts, hd2, hwf1, hin1, hs1⟩ :=
    TryStep_spec hv.1 hv.2.1 hv.2.2.1 rng pos
  have hf := landed_facts k { d.player_ with r := t.1, c := t.2 }
  have hv1 : d1.Valid := Valid_of_snapshot hv hs1 hwf1 hin1
  subst hd2
  refine ⟨c, _, hts, hv1, hs1, ((candidates_facts hv.1 hv.2.1 hv.2.2.1).2.1 c hmem).1, hh, ?_, ?_⟩
  · show d1.player_.hp ≤ d.player_.hp - 25
    rw [hp]; exact hf.2.2.1
  · intro hrun h2run
    show 0 ≤ d1.player_.hp
    simp only at h2run
    by_contra hneg
    have hlt : d1.player_.hp < 0 := by omega
    rw [hst, if_pos hlt] at h2run
    split_ifs at h2run

theorem TryLoop_terminates (rng : Nat → Nat) (fuel : Nat) :
    ∀ (d : Dungeon) (pos : Nat), d.Valid →
      (d.status_ = DungeonStatus.kRunning → d.player_.hp.toNat / 25 + 1 ≤ fuel) →
      ∃ d' moves, TryLoop rng fuel d pos = .ok (d', pos + moves.length) ∧
        d'.status_ ≠ DungeonStatus.kRunning ∧ d'.Valid ∧ d.SameSnapshot d' ∧
        d'.past_moves_ = d.past_moves_ ++ moves ∧ (∀ c ∈ moves, c ∈ kDirections) ∧
        (d.status_ = DungeonStatus.kRunning →
          1 ≤ moves.length ∧ moves.length ≤ d.player_.hp.toNat / 25 + 1) ∧
        (d.status_ ≠ DungeonStatus.kRunning → d' = d ∧ moves = []) := by
  induction fuel with
  | zero =>
      intro d pos hv hfuel
      have hnr : d.status_ ≠ DungeonStatus.kRunning := fun h => by have := hfuel h; omega
      refine ⟨d, [], ?_, hnr, hv, SameSnapshot.refl d, by simp, by simp,
        fun h => absurd h hnr, fun _ => ⟨rfl, rfl⟩⟩
      simp [TryLoop, hnr]
  | succ fuel ih =>
      intro d pos hv hfuel
      by_cases hrun : d.status_ = DungeonStatus.kRunning
      · obtain ⟨c, d2, hts, hv2, hs2, hc, hh, hhp, hpos⟩ := TryStep_valid hv rng pos
        have hfuel2 : d2.status_ = DungeonStatus.kRunning →
            d2.player_.hp.toNat / 25 + 1 ≤ fuel := by
          intro h2run
          have h0 := hpos hrun h2run
          have hf := hfuel hrun
          have : d2.player_.hp.toNat + 25 ≤ d.player_.hp.toNat := by omega
          omega
        obtain ⟨d', moves, hl, hnr, hv', hs', hm, hmc, hcnt, hstop⟩ := ih d2 (pos + 1) hv2 hfuel2
        refine ⟨d', c :: moves, ?_, hnr, hv', SameSnapshot.trans hs2 hs', ?_, ?_, ?_, ?_⟩
        · simp only [TryLoop, hrun, if_true, hts]
          rw [hl]
          simp only [List.length_cons]
          congr 2
          omega
        · rw [hm, hh]; simp
        · intro x hx
          rcases List.mem_cons.1 hx with rfl | hx
          · exact hc
          · exact hmc x hx
        · intro _
          simp only [List.length_cons]
          refine ⟨by omega, ?_⟩
          by_cases h2run : d2.status_ = DungeonStatus.kRunning
          · have h0 := hpos hrun h2run
            have := (hcnt h2run).2
            have : d2.player_.hp.toNat + 25 ≤ d.player_.hp.toNat := by omega
            omega
          · rw [(hstop h2run).2]; simp
        · intro h; exact absurd hrun h
      · refine ⟨d, [], ?_, hrun, hv, SameSnapshot.refl d, by simp, by simp,
          fun h => absurd h hrun, fun _ => ⟨rfl, rfl⟩⟩
        simp [TryLoop, hrun]

theorem Try_terminates {self : DungeonRunner} (hv : self.dungeon_.Valid) (rng : Nat → Nat)
    (pos fuel : Nat) (hfuel : self.dungeon_.player_initial_.hp.toNat / 25 + 1 ≤ fuel) :
    ∃ d', self.Try rng pos fuel =
        .ok (decide (d'.status_ = DungeonStatus.kPassed), { dungeon_ := d' },
          pos + d'.past_moves_.length) ∧
      d'.status_ ≠ DungeonStatus.kRunning ∧ d'.Valid ∧ self.dungeon_.SameSnapshot d' ∧
      (∀ c ∈ d'.past_moves_, c ∈ kDirections) ∧
      1 ≤ d'.past_moves_.length ∧
      d'.past_moves_.length ≤ self.dungeon_.player_initial_.hp.toNat / 25 + 1 := by
  obtain ⟨d', moves, hl, hnr, hv', hs', hm, hmc, hcnt, _⟩ :=
    TryLoop_terminates rng fuel self.dungeon_.Reset pos (Reset_valid hv) (fun _ => hfuel)
  have hm' : d'.past_moves_ = moves := by rw [hm]; rfl
  have hc := hcnt rfl
  refine ⟨d', ?_, hnr, hv', SameSnapshot.trans (Reset_snapshot _) hs', ?_, ?_, ?_⟩
  · unfold DungeonRunner.Try
    rw [hl]
    simp only [bind, Except.bind, pure, Except.pure, hm']
  · rw [hm']; exact hmc
  · rw [hm']; exact hc.1
  · rw [hm']; exact hc.2

/-- C18: an accepted `Move` lowers the health by at least 25; and for a valid
dungeon (size at least 2) with initial health `h`, `Try` with fuel for
`floor(max h 0 / 25) + 1` iterations returns, with the status `kDead` or
`kPassed`, after as many draws as moves, at least one move, at most
`floor(h / 25) + 1` moves when `h >= 0` and exactly one move when `h < 0`. -/
theorem Try_ends_within_health_bound (self : DungeonRunner) (rng : Nat → Nat) (pos fuel : Nat)
    (hv : self.dungeon_.Valid)
    (hfuel : self.dungeon_.player_initial_.hp.toNat / 25 + 1 ≤ fuel) :
    (∀ (d : Dungeon) (direction : Char) (t : Int × Int), d.WellFormed →
        d.NextPosition direction = .ok t → d.IsInGrid t.1 t.2 = true →
        ∃ d1, d.Move direction = .ok d1 ∧ d1.player_.hp ≤ d.player_.hp - 25) ∧
      ∃ found d' n, self.Try rng pos fuel = .ok (found, { dungeon_ := d' }, pos + n) ∧
        (d'.status_ = DungeonStatus.kDead ∨ d'.status_ = DungeonStatus.kPassed) ∧
        d'.past_moves_.length = n ∧ 1 ≤ n ∧
        (0 ≤ self.dungeon_.player_initial_.hp →
          (n : Int) ≤ self.dungeon_.player_initial_.hp / 25 + 1) ∧
        (self.dungeon_.player_initial_.hp < 0 → n = 1) := by
  constructor
  · intro d direction t hwf ht hin
    obtain ⟨g', k, _, _, _, hm⟩ := Move_accepted_eq hwf ht hin
    exact ⟨_, hm, (landed_facts k { d.player_ with r := t.1, c := t.2 }).2.2.1⟩
  · obtain ⟨d', htry, hnr, _, _, _, h1, hle⟩ := Try_terminates hv rng pos fuel hfuel
    refine ⟨_, d', _, htry, ?_, rfl, h1, ?_, ?_⟩
    · cases hs : d'.status_ with
      | kPassed => exact Or.inr rfl
      | kDead => exact Or.inl rfl
      | kRunning => exact absurd hs hnr
    · intro h0; omega
    · intro hneg; omega

theorem Try_ends_within_health_bound_witness :
    (exampleDungeon.Valid ∧ exampleDungeon.player_initial_.hp.toNat / 25 + 1 ≤ 5) ∧
      ((∀ (d : Dungeon) (direction : Char) (t : Int × Int), d.WellFormed →
          d.NextPosition direction = .ok t → d.IsInGrid t.1 t.2 = true →
          ∃ d1, d.Move direction = .ok d1 ∧ d1.player_.hp ≤ d.player_.hp - 25) ∧
        ∃ found d' n,
          DungeonRunner.Try { dungeon_ := exampleDungeon } lethalDraws 9 5 =
            .ok (found, { dungeon_ := d' }, 9 + n) ∧
          (d'.status_ = DungeonStatus.kDead ∨ d'.status_ = DungeonStatus.kPassed) ∧
          d'.past_moves_.length = n ∧ 1 ≤ n ∧
          (0 ≤ exampleDungeon.player_initial_.hp →
            (n : Int) ≤ exampleDungeon.player_initial_.hp / 25 + 1) ∧
          (exampleDungeon.player_initial_.hp < 0 → n = 1)) :=
  ⟨⟨by decide, by decide⟩,
    Try_ends_within_health_bound { dungeon_ := exampleDungeon } lethalDraws 9 5
      (by decide) (by decide)⟩

/-! ## The runs of the runner -/

theorem kDirectionFull_eq {c : Char} (hc : c ∈ kDirections) :
    kDirectionFull c = .ok (directionName c) := by
  simp only [kDirections, List.mem_cons, List.mem_singleton, List.not_mem_nil, or_false] at hc
  rcases hc with rfl | rfl | rfl | rfl <;> rfl

theorem intercalate_go_cons (acc sep a : String) (rest : List String) :
    String.intercalate.go acc sep (a :: rest) = String.intercalate.go (acc ++ sep ++ a) sep rest :=
  rfl

theorem intercalate_go_nil (acc sep : String) : String.intercalate.go acc sep [] = acc := rfl

theorem pendingText_start (l : List String) : pendingText l "" = " -> ".intercalate l := by
  cases l with
  | nil => rfl
  | cons a rest =>
      show String.intercalate.go ("" ++ a) " -> " rest = String.intercalate.go a " -> " rest
      rw [String.empty_append]

theorem MovesToString_eq {moves : List Char} (h : ∀ c ∈ moves, c ∈ kDirections) :
    MovesToString moves = .ok (solutionText moves) := by
  obtain ⟨text, ht, hP⟩ := forLoop_inv (moves.length : Int)
    (fun i ret =>
      vecGet moves i >>= fun c =>
        kDirectionFull c >>= fun name =>
          if i ≠ (moves.length : Int) - 1 then
            (pure (ret ++ name ++ " -> ") : Except Fault String)
          else pure (ret ++ name)) ""
    (fun k ret => pendingText ((moves.map directionName).drop k) ret = solutionText moves)
    (by
      show pendingText ((moves.map directionName).drop 0) "" = solutionText moves
      rw [List.drop_zero, pendingText_start]; rfl)
    (by
      intro k ret hk hP
      have hk' : k < moves.length := by omega
      have hkm : k < (moves.map directionName).length := by simpa using hk'
      have hdrop : (moves.map directionName).drop k =
          directionName moves[k] :: (moves.map directionName).drop (k + 1) := by
        rw [List.drop_eq_getElem_cons hkm]; simp
      rw [hdrop] at hP
      simp only [vecGet_natCast hk', bind, Except.bind, kDirectionFull_eq (h _ (List.getElem_mem hk')),
        pure, Except.pure]
      by_cases hlast : k + 1 = moves.length
      · have hi : ¬ ((k : Int) ≠ (moves.length : Int) - 1) := by omega
        refine ⟨_, by rw [if_neg hi], ?_⟩
        have hnil : (moves.map directionName).drop (k + 1) = [] := by
          apply List.drop_eq_nil_of_le; simp; omega
        rw [hnil] at hP ⊢
        exact hP
      · have hi : (k : Int) ≠ (moves.length : Int) - 1 := by omega
        refine ⟨_, by rw [if_pos hi], ?_⟩
        have hk1 : k + 1 < (moves.map directionName).length := by simp; omega
        have hdrop1 : (moves.map directionName).drop (k + 1) =
            (moves.map directionName)[k + 1] :: (moves.map directionName).drop (k + 1 + 1) :=
          List.drop_eq_getElem_cons hk1
        rw [hdrop1] at hP ⊢
        exact hP)
  have hnil : (moves.map directionName).drop (moves.length : Int).toNat = [] := by
    apply List.drop_eq_nil_of_le; simp
  rw [hnil] at hP
  unfold MovesToString
  simp only [bind, Except.bind, pure, Except.pure] at ht ⊢
  rw [ht]
  exact congrArg _ hP

theorem consecutiveTries_succ {rng : Nat → Nat} {fuel n : Nat} {self next last : DungeonRunner}
    {pos pos' p : Nat} {found : Bool} {ends : List Dungeon}
    (htry : self.Try rng pos fuel = .ok (found, next, pos'))
    (hrest : consecutiveTries rng fuel n next pos' = .ok (ends, last, p)) :
    consecutiveTries rng fuel (n + 1) self pos = .ok (next.dungeon_ :: ends, last, p) := by
  rw [consecutiveTries]
  rw [htry]
  simp only [hrest]

theorem RunLoop_spec (rng : Nat → Nat) (fuel : Nat) (remaining : Nat) :
    ∀ (self : DungeonRunner) (pos : Nat), self.dungeon_.Valid →
      self.dungeon_.player_initial_.hp.toNat / 25 + 1 ≤ fuel →
      ∃ res fails, RunLoop rng fuel remaining self pos = .ok res ∧
        (∀ d ∈ fails, d.status_ = DungeonStatus.kDead) ∧
        ((res.solution = none ∧ fails.length = remaining ∧
            consecutiveTries rng fuel remaining self pos = .ok (fails, res.runner, res.pos) ∧
            res.tries = fails.map (fun d => (false, d.past_moves_))) ∨
          (fails.length < remaining ∧
            res.runner.dungeon_.status_ = DungeonStatus.kPassed ∧
            res.solution = some (solutionText res.runner.dungeon_.past_moves_) ∧
            consecutiveTries rng fuel (fails.length + 1) self pos =
              .ok (fails ++ [res.runner.dungeon_], res.runner, res.pos) ∧
            res.tries = fails.map (fun d => (false, d.past_moves_)) ++
              [(true, res.runner.dungeon_.past_moves_)])) := by
  induction remaining with
  | zero =>
      intro self pos _ _
      exact ⟨_, [], rfl, by simp, Or.inl ⟨rfl, rfl, rfl, rfl⟩⟩
  | succ remaining ih =>
      intro self pos hv hfuel
      obtain ⟨d', htry, hnr, hv', hs', hmc, _, _⟩ := Try_terminates hv rng pos fuel hfuel
      by_cases hpass : d'.status_ = DungeonStatus.kPassed
      · have htext := MovesToString_eq hmc
        refine ⟨{ solution := some (solutionText d'.past_moves_)
                  runner := { dungeon_ := d' }
                  pos := pos + d'.past_moves_.length
                  tries := [(true, d'.past_moves_)] }, [], ?_, by simp,
          Or.inr ⟨by simp, hpass, rfl, ?_, rfl⟩⟩
        · simp only [RunLoop, htry, hpass, decide_True, if_true, htext]
        · exact consecutiveTries_succ htry rfl
      · have hdead : d'.status_ = DungeonStatus.kDead := by
          cases hs : d'.status_ with
          | kPassed => exact absurd hs hpass
          | kDead => rfl
          | kRunning => exact absurd hs hnr
        have hfuel' : d'.player_initial_.hp.toNat / 25 + 1 ≤ fuel := by
          rw [hs'.2.2.2]; exact hfuel
        obtain ⟨res, fails, hrun, hf, hcase⟩ :=
          ih { dungeon_ := d' } (pos + d'.past_moves_.length) hv' hfuel'
        refine ⟨{ res with tries := (false, d'.past_moves_) :: res.tries }, d' :: fails, ?_, ?_, ?_⟩
        · simp only [RunLoop, htry, hpass, decide_False, Bool.false_eq_true, if_false, hrun]
        · intro x hx
          rcases List.mem_cons.1 hx with rfl | hx
          · exact hdead
          · exact hf x hx
        · rcases hcase with ⟨h1, h2, h3, h4⟩ | ⟨h1, h2, h3, h4, h5⟩
          · exact Or.inl ⟨h1, by simp [h2], consecutiveTries_succ htry h3, by simp [h4]⟩
          · exact Or.inr ⟨by simp only [List.length_cons]; omega, h2, h3,
              consecutiveTries_succ htry h4, by simp [h5]⟩

/-- C13: for a runner on a valid dungeon, fuel for every attempt and
`try_count >= 0`, `Run` returns, and the attempts it makes are consecutive
calls of `Try` (`consecutiveTries`) that leave the dungeons `fails`, all
`kDead`, followed by at most one more.  Either there were exactly `try_count`
attempts, all failed, and no solution is printed; or fewer than `try_count`
attempts failed, the next one left the status `kPassed`, it was the last, and
the solution printed is the text of its move history, the full names of the
moves joined by ` -> `.  The runner and the position of the next draw are
those after these attempts. -/
theorem Run_stops_at_first_success (self : DungeonRunner) (rng : Nat → Nat) (pos fuel : Nat)
    (try_count : Int) (hv : self.dungeon_.Valid)
    (hfuel : self.dungeon_.player_initial_.hp.toNat / 25 + 1 ≤ fuel)
    (htries : 0 ≤ try_count) :
    ∃ res fails, self.Run rng pos fuel try_count = .ok res ∧
      (∀ d ∈ fails, d.status_ = DungeonStatus.kDead) ∧
      ((res.solution = none ∧ (fails.length : Int) = try_count ∧
          consecutiveTries rng fuel fails.length self pos = .ok (fails, res.runner, res.pos) ∧
          res.tries = fails.map (fun d => (false, d.past_moves_))) ∨
        ((fails.length : Int) < try_count ∧
          res.runner.dungeon_.status_ = DungeonStatus.kPassed ∧
          res.solution = some (solutionText res.runner.dungeon_.past_moves_) ∧
          consecutiveTries rng fuel (fails.length + 1) self pos =
            .ok (fails ++ [res.runner.dungeon_], res.runner, res.pos) ∧
          res.tries = fails.map (fun d => (false, d.past_moves_)) ++
            [(true, res.runner.dungeon_.past_moves_)])) := by
  obtain ⟨res, fails, hrun, hf, hcase⟩ := RunLoop_spec rng fuel try_count.toNat self pos hv hfuel
  refine ⟨res, fails, hrun, hf, ?_⟩
  rcases hcase with ⟨h1, h2, h3, h4⟩ | ⟨h1, h2, h3, h4, h5⟩
  · exact Or.inl ⟨h1, by omega, by rw [h2]; exact h3, h4⟩
  · exact Or.inr ⟨by omega, h2, h3, h4, h5⟩

theorem Run_stops_at_first_success_witness :
    (richDungeon.Valid ∧ richDungeon.player_initial_.hp.toNat / 25 + 1 ≤ 31 ∧
        (0 : Int) ≤ 5) ∧
      ∃ res fails, DungeonRunner.Run { dungeon_ := richDungeon } twoAttemptDraws 0 31 5 = .ok res ∧
        (∀ d ∈ fails, d.status_ = DungeonStatus.kDead) ∧
        ((res.solution = none ∧ (fails.length : Int) = 5 ∧
            consecutiveTries twoAttemptDraws 31 fails.length { dungeon_ := richDungeon } 0 =
              .ok (fails, res.runner, res.pos) ∧
            res.tries = fails.map (fun d => (false, d.past_moves_))) ∨
          ((fails.length : Int) < 5 ∧
            res.runner.dungeon_.status_ = DungeonStatus.kPassed ∧
            res.solution = some (solutionText res.runner.dungeon_.past_moves_) ∧
            consecutiveTries twoAttemptDraws 31 (fails.length + 1) { dungeon_ := richDungeon } 0 =
              .ok (fails ++ [res.runner.dungeon_], res.runner, res.pos) ∧
            res.tries = fails.map (fun d => (false, d.past_moves_)) ++
              [(true, res.runner.dungeon_.past_moves_)])) :=
  ⟨⟨by decide, by decide, by decide⟩,
    Run_stops_at_first_success { dungeon_ := richDungeon } twoAttemptDraws 0 31 5
      (by decide) (by decide) (by decide)⟩

/-- The run of the witness of C13: with five tries allowed, the first attempt
dies after seventeen moves, the second passes, no third attempt is made, and
the solution printed names the moves of the second attempt. -/
theorem Run_second_attempt_passes :
    (DungeonRunner.Run { dungeon_ := richDungeon } twoAttemptDraws 0 31 5).map
        (fun res => (res.solution, res.pos, res.tries.map Prod.fst,
          res.runner.dungeon_.status_, res.runner.dungeon_.past_moves_)) =
      .ok (some ("Down -> Right -> Up -> Left -> Right -> Left -> Down -> Left -> Up -> " ++
          "Up -> Right -> Left -> Down -> Right -> Up -> Left -> Right"),
        34, [false, true], DungeonStatus.kPassed, lethalMoves) := by
  decide

/-- C14, as stated, fails for a runner that has played: `Run` with one try on
the constructed dungeon `richDungeon` passes and leaves `passedDungeon`; `Run`
with `try_count = 0` on that runner performs no `Reset` and returns it as it
is, with the status `kPassed` and a grid and a player that differ from the
initial snapshot. -/
theorem Run_zero_keeps_played_dungeon :
    Dungeon.construct 3 10 760 lethalDraws 0 = .ok (richDungeon, 9) ∧
      (DungeonRunner.Run { dungeon_ := richDungeon } lethalDraws 9 31 1 >>= fun first =>
        DungeonRunner.Run first.runner lethalDraws first.pos 31 0) =
        .ok { solution := none, runner := { dungeon_ := passedDungeon }, pos := 26, tries := [] } ∧
      passedDungeon.status_ = DungeonStatus.kPassed ∧
      passedDungeon.grid_ ≠ passedDungeon.grid_initial_ ∧
      passedDungeon.player_ ≠ passedDungeon.player_initial_ := by
  decide

/-- C14, amended: for every runner, `Run` with `try_count = 0` returns at
once: no call of `Try`, no solution printed, no draw consumed, and the runner
with its dungeon left exactly as it was (no `Reset` is made), so that the
status is `kPassed` afterwards only if it was before.  When the dungeon of the
runner is as the constructor returned it, its grid and player are the initial
snapshot and its status is `kRunning` after the call. -/
theorem Run_zero_tries (self : DungeonRunner) (rng : Nat → Nat) (pos fuel : Nat) :
    ∃ res, self.Run rng pos fuel 0 = .ok res ∧
      res.tries = [] ∧ res.solution = none ∧ res.pos = pos ∧ res.runner = self ∧
      consecutiveTries rng fuel 0 self pos = .ok ([], res.runner, res.pos) ∧
      (res.runner.dungeon_.status_ = DungeonStatus.kPassed →
        self.dungeon_.status_ = DungeonStatus.kPassed) ∧
      (∀ (size desired_orb_count initial_hp : Int) (rng0 : Nat → Nat) (pos0 pos1 : Nat),
        Dungeon.construct size desired_orb_count initial_hp rng0 pos0 =
          .ok (self.dungeon_, pos1) →
        res.runner.dungeon_.grid_ = res.runner.dungeon_.grid_initial_ ∧
          res.runner.dungeon_.player_ = res.runner.dungeon_.player_initial_ ∧
          res.runner.dungeon_.status_ = DungeonStatus.kRunning) := by
  refine ⟨{ solution := none, runner := self, pos := pos, tries := [] }, rfl, rfl, rfl, rfl, rfl,
    rfl, fun h => h, ?_⟩
  intro size desired_orb_count initial_hp rng0 pos0 pos1 hc
  obtain ⟨g, _, hd⟩ := construct_eq_ok hc
  show self.dungeon_.grid_ = self.dungeon_.grid_initial_ ∧
    self.dungeon_.player_ = self.dungeon_.player_initial_ ∧
    self.dungeon_.status_ = DungeonStatus.kRunning
  rw [hd]
  exact ⟨rfl, rfl, rfl⟩

theorem Run_zero_tries_witness :
    Dungeon.construct 3 10 100 lethalDraws 0 = .ok (exampleDungeon, 9) ∧
      ∃ res, DungeonRunner.Run { dungeon_ := exampleDungeon } lethalDraws 9 5 0 = .ok res ∧
        res.tries = [] ∧ res.solution = none ∧ res.pos = 9 ∧
        res.runner = { dungeon_ := exampleDungeon } ∧
        res.runner.dungeon_.grid_ = res.runner.dungeon_.grid_initial_ ∧
        res.runner.dungeon_.player_ = res.runner.dungeon_.player_initial_ ∧
        res.runner.dungeon_.status_ = DungeonStatus.kRunning := by
  obtain ⟨res, h1, h2, h3, h4, h5, _, _, h8⟩ :=
    Run_zero_tries { dungeon_ := exampleDungeon } lethalDraws 9 5
  obtain ⟨g1, g2, g3⟩ := h8 3 10 100 lethalDraws 0 9 (by decide)
  exact ⟨by decide, res, h1, h2, h3, h4, h5, g1, g2, g3⟩

/-! ## `Set` and the dimensions of the layout -/

/-- C15 fails on the layout `{{0,1,2},{3,3},{2,2,0}}` for the dungeon of size
3: both dimension assertions of `Set` hold (three rows, first row of length
3), and the copy loop then reads `grid[1][2]` outside the second row.  A
layout whose second row is too long, `{{0,1,2},{3,3,1,7},{2,2,0}}`, is
accepted.  A wrong number of rows, a first row of the wrong length and a tile
other than `kBigWhite` at `(1, 1)` do fail an assertion. -/
theorem Set_reads_outside_short_row :
    exampleDungeon.Set [[0, 1, 2], [3, 3], [2, 2, 0]] = .error Fault.outOfRange ∧
      exampleDungeon.Set [[0, 1, 2], [3, 3, 1, 7], [2, 2, 0]] =
        .ok { exampleDungeon with grid_ := [[0, 1, 2], [3, 3, 1], [2, 2, 0]] } ∧
      exampleDungeon.Set [[0, 1, 2], [3, 3, 1]] = .error Fault.assertFailed ∧
      exampleDungeon.Set [[0, 1], [3, 3, 1], [2, 2, 0]] = .error Fault.assertFailed ∧
      exampleDungeon.Set [[0, 1, 2], [3, 2, 1], [2, 2, 0]] = .error Fault.assertFailed := by
  decide

/-! ## The grid after a path -/

theorem Tiles_read {g : Grid} (ht : g.Tiles) {i j : Int} {v : Block}
    (h : g.read i j = .ok v) : (0 : Int) ≤ v ∧ v < 4 := by
  obtain ⟨_, _, row, hr, hv⟩ := Grid.read_eq_ok.1 h
  exact ht row (List.getElem?_mem hr) v (List.getElem?_mem hv)

theorem closed_form_step (g : Int) (L C : Nat) (hg : 0 ≤ g ∧ g < 4) :
    ((g + 1) % 4 + (L : Int) - (C : Int)) % 4 = (g + ((L + 1 : Nat) : Int) - (C : Int)) % 4 ∧
      (g + (L : Int) - (C : Int)) % 4 = (g + ((L + 1 : Nat) : Int) - ((C + 1 : Nat) : Int)) % 4 ∧
      (g + ((0 : Nat) : Int) - ((0 : Nat) : Int)) % 4 = g := by
  omega

theorem Move_accepted_abs {d : Dungeon} {direction : Char} {t : Int × Int}
    (hwf : d.WellFormed) (ht : d.NextPosition direction = .ok t)
    (hin : d.IsInGrid t.1 t.2 = true) :
    ∃ d1, d.Move direction = .ok d1 ∧ d1.WellFormed ∧
      d1.IsInGrid d1.player_.r d1.player_.c = true ∧
      (∀ (i j : Int) (v : Block), d.grid_.read i j = .ok v →
        d1.grid_.read i j = .ok (advanced t.1 t.2 i j v)) ∧
      d1.past_moves_ = d.past_moves_ ++ [direction] := by
  obtain ⟨g', k, hk, hsq, hadv, hm⟩ := Move_accepted_eq hwf ht hin
  have hf := landed_facts k { d.player_ with r := t.1, c := t.2 }
  have hwf1 : Dungeon.WellFormed
      { d with
        status_ :=
          if (landed k { d.player_ with r := t.1, c := t.2 }).hp < 0 then .kDead
          else d.status_
        grid_ := g'
        player_ := landed k { d.player_ with r := t.1, c := t.2 }
        past_moves_ := d.past_moves_ ++ [direction] } := ⟨hwf.1, hsq⟩
  refine ⟨_, hm, hwf1, ?_, hadv, rfl⟩
  rw [IsInGrid_iff hwf1]
  simp only [hf.1, hf.2.1]
  exact (IsInGrid_iff hwf _ _).1 hin

theorem closed_form_aux (calls : List Call) :
    ∀ d : Dungeon, d.WellFormed → d.IsInGrid d.player_.r d.player_.c = true →
      (∀ (i j : Int) (v : Block), d.grid_.read i j = .ok v → (0 : Int) ≤ v ∧ v < 4) →
      (∀ call ∈ calls, call.isPlay = true) →
      ∃ d', runCalls calls d = .ok d' ∧
        d'.past_moves_.length = d.past_moves_.length + (landings calls d).length ∧
        ∀ (i j : Int) (g : Block), d.grid_.read i j = .ok g →
          d'.grid_.read i j =
            .ok ((g + ((landings calls d).length : Int) -
              (((landings calls d).count (i, j) : Nat) : Int)) % 4) := by
  induction calls with
  | nil =>
      intro d _ _ htiles _
      refine ⟨d, rfl, rfl, ?_⟩
      intro i j g hg
      have hgt : (0 : Int) ≤ g ∧ g < 4 := htiles i j g hg
      rw [hg]
      simp only [landings, List.length_nil, List.count_nil]
      congr 1
      exact ((closed_form_step g 0 0 hgt).2.2).symm
  | cons call rest ih =>
      intro d hwf hpl htiles hplay
      have hrest : ∀ c ∈ rest, c.isPlay = true := fun c hc => hplay c (List.mem_cons_of_mem _ hc)
      have hcall := hplay call (List.mem_cons_self _ _)
      cases call with
      | Set grid => simp [Call.isPlay] at hcall
      | Reset => simp [Call.isPlay] at hcall
      | Attack =>
          obtain ⟨h1, h2, h3, h4⟩ := (IsInGrid_iff hwf _ _).1 hpl
          obtain ⟨b, hb⟩ := Grid.read_ok_of_square hwf.2 (i := d.player_.r) (j := d.player_.c) h1
            (by have := hwf.1; omega) h3 (by have := hwf.1; omega)
          have ha := Attack_eq (d := d) hb
          obtain ⟨d', hrun, hlen, hcells⟩ := ih _ (show Dungeon.WellFormed
            { d with
              status_ :=
                if b = Block.kBigWhite ∧ 10 ≤ d.player_.orb_count then .kPassed
                else d.status_ } from hwf) hpl htiles hrest
          refine ⟨d', ?_, ?_, ?_⟩
          · simp only [runCalls, Call.apply, ha]; exact hrun
          · simp only [landings, Call.apply, ha]; exact hlen
          · simp only [landings, Call.apply, ha]; exact hcells
      | Move direction =>
          have hdir : direction ∈ kDirections := by simpa [Call.isPlay] using hcall
          obtain ⟨t, ht⟩ := NextPosition_ok (d := d) hdir
          cases hin : d.IsInGrid t.1 t.2 with
          | false =>
              have hm := Move_rejected_eq ht hin
              obtain ⟨d', hrun, hlen, hcells⟩ := ih d hwf hpl htiles hrest
              refine ⟨d', ?_, ?_, ?_⟩
              · simp only [runCalls, Call.apply, hm]; exact hrun
              · simp only [landings, Call.apply, hm, ht, hin, Bool.false_eq_true, if_false]
                exact hlen
              · simp only [landings, Call.apply, hm, ht, hin, Bool.false_eq_true, if_false]
                exact hcells
          | true =>
              obtain ⟨d1, hm, hwf1, hpl1, hadv, hhist⟩ := Move_accepted_abs hwf ht hin
              have htiles1 : ∀ (i j : Int) (v : Block), d1.grid_.read i j = .ok v →
                  (0 : Int) ≤ v ∧ v < 4 := by
                intro i j v hv
                obtain ⟨b1, b2, b3, b4⟩ := Grid.read_ok_bounds hwf1.2 hv
                have hks : d1.kSize = d.kSize := (Move_snapshot hm).1
                rw [hks] at b2 b4
                obtain ⟨v0, hv0⟩ := Grid.read_ok_of_square hwf.2 b1 b2 b3 b4
                have h0 := htiles i j v0 hv0
                have := hadv i j v0 hv0
                rw [hv] at this
                cases this
                unfold advanced
                split_ifs
                · exact h0
                · rw [NextBlock_eq_emod h0.1]
                  exact ⟨Int.emod_nonneg _ (by decide), Int.emod_lt_of_pos _ (by decide)⟩
              obtain ⟨d', hrun, hlen, hcells⟩ := ih d1 hwf1 hpl1 htiles1 hrest
              refine ⟨d', ?_, ?_, ?_⟩
              · simp only [runCalls, Call.apply, hm]; exact hrun
              · simp only [landings, Call.apply, hm, ht, hin, if_true, List.length_cons]
                rw [hlen, hhist]
                simp only [List.length_append, List.length_singleton]
                omega
              · intro i j g hg
                have hgt := htiles i j g hg
                simp only [landings, Call.apply, hm, ht, hin, if_true, List.length_cons]
                rw [hcells i j _ (hadv i j g hg)]
                congr 1
                have hstep := closed_form_step g (landings rest d1).length
                  (List.count (i, j) (landings rest d1)) hgt
                by_cases hcell : i = t.1 ∧ j = t.2
                · have hte : t = (i, j) := by
                    obtain ⟨rfl, rfl⟩ := hcell; rfl
                  subst hte
                  simp only [advanced, and_self, if_true, List.count_cons_self]
                  exact hstep.2.1
                · have hte : ¬ t = (i, j) := by
                    intro h; apply hcell; rw [h]; exact ⟨rfl, rfl⟩
                  rw [List.count_cons_of_ne (fun h => hte h.symm)]
                  simp only [advanced, hcell, if_false]
                  rw [NextBlock_eq_emod hgt.1]
                  exact hstep.1

/-- C20: from a well-formed dungeon whose cells are tiles and whose player is
inside the grid, every sequence of calls of `Move` (in the four directions) and
`Attack` runs; the move history grows by the number `k` of accepted moves, and
the cell at `(i, j)`, which held `g`, holds `(g + k - v) mod 4` afterwards,
where `v` is the number of accepted moves that landed on `(i, j)`.  Rejected
moves and attacks are part of the sequence and count for nothing. -/
theorem grid_after_path (d : Dungeon) (calls : List Call)
    (hwf : d.WellFormed) (hpl : d.IsInGrid d.player_.r d.player_.c = true)
    (htiles : d.grid_.Tiles) (hplay : ∀ call ∈ calls, call.isPlay = true) :
    ∃ d', runCalls calls d = .ok d' ∧
      d'.past_moves_.length = d.past_moves_.length + (landings calls d).length ∧
      ∀ (i j : Int) (g : Block), d.grid_.read i j = .ok g →
        d'.grid_.read i j =
          .ok ((g + ((landings calls d).length : Int) -
            (((landings calls d).count (i, j) : Nat) : Int)) % 4) :=
  closed_form_aux calls d hwf hpl (fun _ _ _ h => Tiles_read htiles h) hplay

theorem grid_after_path_witness :
    (exampleDungeon.WellFormed ∧
        exampleDungeon.IsInGrid exampleDungeon.player_.r exampleDungeon.player_.c = true ∧
        exampleDungeon.grid_.Tiles ∧ (∀ call ∈ playCalls, call.isPlay = true)) ∧
      ∃ d', runCalls playCalls exampleDungeon = .ok d' ∧
        d'.past_moves_.length =
          exampleDungeon.past_moves_.length + (landings playCalls exampleDungeon).length ∧
        ∀ (i j : Int) (g : Block), exampleDungeon.grid_.read i j = .ok g →
          d'.grid_.read i j =
            .ok ((g + ((landings playCalls exampleDungeon).length : Int) -
              (((landings playCalls exampleDungeon).count (i, j) : Nat) : Int)) % 4) :=
  ⟨⟨by decide, by decide, by decide, by decide⟩,
    grid_after_path exampleDungeon playCalls (by decide) (by decide) (by decide) (by decide)⟩

/-- The landing positions of the accepted moves of `playCalls` from the
example dungeon (the second move is rejected), and the grid they leave. -/
theorem landings_playCalls :
    landings playCalls exampleDungeon = [(2, 1), (1, 1), (1, 0), (1, 1), (2, 1)] ∧
      (runCalls playCalls exampleDungeon).map (fun d' => d'.grid_) =
        .ok [[2, 2, 3], [3, 2, 1], [0, 1, 2]] := by
  decide

end dungeon_helper
